import Mathlib

/-!
# Verification of the Prospecting Manager core (src/app.py)

Shallow embedding of the pure core of `src/app.py`: the schema normalizer
(`_standardize_columns`), the template renderer (`_render_template`), the
calendar-invite encoder (`_ics_event_bytes` and the bulk assembly loop), and
the analytics aggregator (`rate_table`, `_touch_datetime`, the weekday table).

Modelling conventions:
* Python strings are Lean `String`s; the handful of Python `str` primitives
  the code uses (`lower`, `capitalize`, `replace`, `strip`, `split`,
  `format`, `join`) are re-implemented below on `List Char`, with fuel where
  the recursion is not structural, so every definition evaluates by `decide`
  and `rfl`.
* A pandas timestamp is `PyDT`: wall-clock seconds since 1970-01-01 00:00:00
  together with an optional fixed UTC offset (`none` = naive).  `zoneinfo`
  zones are an offset function of local wall-clock time.
* A cell of a tabular input is `Cell` (missing / string / integer /
  timestamp); a pandas DataFrame is a `Table`, an ordered list of
  (column name, column values).  Sub-second precision, IEEE floats and the
  distinction between `NaN` and `NaT` are not modelled; rates rounded to one
  decimal are carried exactly as integer tenths of a percent.
-/

namespace Prospecter

/-! ## Python string primitives -/

/-- ASCII lower-casing of one character, as `str.lower` acts on the ASCII
range (all column names in the app are ASCII). -/
def lowerChar (c : Char) : Char :=
  if 'A' ≤ c ∧ c ≤ 'Z' then Char.ofNat (c.toNat + 32) else c

/-- ASCII upper-casing of one character. -/
def upperChar (c : Char) : Char :=
  if 'a' ≤ c ∧ c ≤ 'z' then Char.ofNat (c.toNat - 32) else c

/-- Python `str.lower` (ASCII range). -/
def pyLower (s : String) : String := ⟨s.data.map lowerChar⟩

/-- Python `str.capitalize`: first character upper-cased, the rest
lower-cased. -/
def pyCapitalize (s : String) : String :=
  match s.data with
  | [] => ""
  | c :: cs => ⟨upperChar c :: cs.map lowerChar⟩

/-- Python whitespace (the characters `str.strip` removes). -/
def isPyWs (c : Char) : Bool :=
  c = ' ' ∨ c = '\t' ∨ c = '\n' ∨ c = '\r' ∨ c = '\x0b' ∨ c = '\x0c'

/-- Python `str.strip()` with no argument. -/
def pyStrip (s : String) : String :=
  ⟨((s.data.dropWhile isPyWs).reverse.dropWhile isPyWs).reverse⟩

/-- One step list of `str.replace`: replace every non-overlapping occurrence
of `pat` (left to right) by `rep`.  Fuel-based so that it is structural;
`fuel ≥ s.length` always suffices because every step consumes at least one
character of `s` when `pat ≠ []`. -/
def replaceChars (pat rep : List Char) : Nat → List Char → List Char
  | 0, s => s
  | fuel + 1, s =>
    if pat ≠ [] ∧ pat.isPrefixOf s then
      rep ++ replaceChars pat rep fuel (s.drop pat.length)
    else
      match s with
      | [] => []
      | c :: rest => c :: replaceChars pat rep fuel rest

/-- Python `str.replace` (replace all occurrences). -/
def pyReplace (s pat rep : String) : String :=
  ⟨replaceChars pat.data rep.data s.data.length s.data⟩

/-- Does `sep` occur as a contiguous run inside `s`? -/
def hasSub (sep : List Char) : List Char → Bool
  | [] => sep.isEmpty
  | s@(_ :: rest) => sep.isPrefixOf s || hasSub sep rest

/-- Core of Python `str.split(sep)` for a non-empty separator: `acc` holds
the (reversed) characters of the current piece.  Fuel-based; every step
consumes at least one character of `s`, so `fuel ≥ s.length` suffices (when
the fuel runs out the remaining text is flushed into the current piece,
which the adequacy lemmas below show is never observable). -/
def splitCore (sep : List Char) : Nat → List Char → List Char → List (List Char)
  | 0, acc, s => [acc.reverse ++ s]
  | fuel + 1, acc, s =>
    if sep ≠ [] ∧ sep.isPrefixOf s then
      acc.reverse :: splitCore sep fuel [] (s.drop sep.length)
    else
      match s with
      | [] => [acc.reverse]
      | c :: rest => splitCore sep fuel (c :: acc) rest

/-- Python `str.split(sep)` for a non-empty separator (the app never splits
on an empty separator). -/
def pySplit (s sep : String) : List String :=
  if sep.data.isEmpty then [s]
  else (splitCore sep.data s.data.length [] s.data).map fun l => (⟨l⟩ : String)

/-- `sep.join`-style interleaving at the character level. -/
def interChars (sep : List Char) : List (List Char) → List Char
  | [] => []
  | [x] => x
  | x :: xs => x ++ sep ++ interChars sep xs

/-- Python `"\r\n".join(lines)`. -/
def joinCRLF (lines : List String) : String :=
  ⟨interChars ['\r', '\n'] (lines.map String.data)⟩

/-! ## Calendar arithmetic

Proleptic Gregorian civil-date conversions (the standard days-from-civil /
civil-from-days algorithms), used to model `strftime` and pandas
`dt.day_name()`. -/

/-- Days since 1970-01-01 of the civil date `y-m-d`. -/
def daysFromCivil (y : Int) (m d : Nat) : Int :=
  let y' : Int := y - (if m ≤ 2 then 1 else 0)
  let era : Int := y'.fdiv 400
  let yoe : Nat := (y' - era * 400).toNat
  let mp : Nat := if 2 < m then m - 3 else m + 9
  let doy : Nat := (153 * mp + 2) / 5 + d - 1
  let doe : Nat := yoe * 365 + yoe / 4 - yoe / 100 + doy
  era * 146097 + (doe : Int) - 719468

/-- Civil date `(y, m, d)` of a count of days since 1970-01-01. -/
def civilFromDays (z : Int) : Int × Nat × Nat :=
  let z' : Int := z + 719468
  let era : Int := z'.fdiv 146097
  let doe : Nat := (z' - era * 146097).toNat
  let yoe : Nat := (doe - doe / 1460 + doe / 36524 - doe / 146096) / 365
  let doy : Nat := doe - (365 * yoe + yoe / 4 - yoe / 100)
  let mp : Nat := (5 * doy + 2) / 153
  let d : Nat := doy - (153 * mp + 2) / 5 + 1
  let m : Nat := if mp < 10 then mp + 3 else mp - 9
  ((yoe : Int) + era * 400 + (if m ≤ 2 then 1 else 0), m, d)

/-- Wall-clock seconds since the epoch of `y-m-d h:mi:s` (naive). -/
def secOfCivil (y : Int) (m d h mi s : Nat) : Int :=
  daysFromCivil y m d * 86400 + (h * 3600 + mi * 60 + s : Nat)

/-- Two-digit zero-padded decimal. -/
def pad2 (n : Nat) : String := if n < 10 then "0" ++ toString n else toString n

/-- Four-digit zero-padded decimal (years in range here are four digits). -/
def pad4 (n : Nat) : String :=
  if n < 10 then "000" ++ toString n
  else if n < 100 then "00" ++ toString n
  else if n < 1000 then "0" ++ toString n
  else toString n

/-- `strftime('%Y%m%dT%H%M%SZ')` applied to a UTC instant given in seconds
since the epoch. -/
def strftimeZ (sec : Int) : String :=
  let days := sec.fdiv 86400
  let sod : Nat := (sec - days * 86400).toNat
  let c := civilFromDays days
  pad4 c.1.toNat ++ pad2 c.2.1 ++ pad2 c.2.2 ++ "T" ++
    pad2 (sod / 3600) ++ pad2 (sod % 3600 / 60) ++ pad2 (sod % 60) ++ "Z"

/-- English month names, for `strftime('%B ...')`. -/
def monthName (m : Nat) : String :=
  [ "January", "February", "March", "April", "May", "June", "July",
    "August", "September", "October", "November", "December" ].getD (m - 1) ""

/-- Weekday names Monday..Sunday, the order of `weekday_order` in the app. -/
def weekdayNames : List String :=
  ["Monday", "Tuesday", "Wednesday", "Thursday", "Friday", "Saturday", "Sunday"]

/-! ## Data model -/

/-- A pandas timestamp: wall-clock seconds since 1970-01-01 00:00:00 plus an
optional fixed UTC offset in seconds (`none` = timezone-naive). -/
structure PyDT where
  sec : Int
  off : Option Int
deriving DecidableEq

/-- A cell of a tabular input: missing (`NaN`/`NaT`), a string, an integer,
or a timestamp. -/
inductive Cell where
  | na
  | str (s : String)
  | int (i : Int)
  | dt (d : PyDT)
deriving DecidableEq

/-- A tabular input / pandas DataFrame: ordered columns of named cell
lists. -/
abbrev Table := List (String × List Cell)

/-- A normalized prospect record (one row of the canonical table), with the
types §3 of the spec gives the canonical columns. -/
structure Row where
  name : String := ""
  phone : String := ""
  email : String := ""
  company : String := ""
  title : String := ""
  state : String := ""
  status : String := ""
  meeting : Option PyDT := none
  callback : Option PyDT := none
  lastCall : Option PyDT := none
  attempts : Int := 0
  notes : String := ""
deriving DecidableEq

/-- A `zoneinfo` timezone: the UTC offset (seconds east) it assigns to a
local wall-clock instant. -/
structure Tz where
  offsetAt : Int → Int

/-- Model of the IANA zone database lookup `ZoneInfo(name)`: a partial map
from zone names to zones; `none` models `ZoneInfoNotFoundError`. -/
abbrev ZoneDb := String → Option Tz

/-- Model of the IANA zone `America/New_York` for dates in 2025 (EST −5h,
EDT −4h between 2025-03-09 02:00 and 2025-11-02 02:00 local wall time). -/
def newYorkTz : Tz :=
  ⟨fun localSec =>
    if secOfCivil 2025 3 9 2 0 0 ≤ localSec ∧ localSec < secOfCivil 2025 11 2 2 0 0
    then -4 * 3600 else -5 * 3600⟩

/-- The UTC zone (`ZoneInfo("UTC")`). -/
def utcTz : Tz := ⟨fun _ => 0⟩

/-- A concrete zone database carrying the zones exercised by the witnesses. -/
def zdb0 : ZoneDb := fun name =>
  if name = "America/New_York" then some newYorkTz
  else if name = "UTC" then some utcTz
  else none

/-! ## Schema normalizer (`_standardize_columns`, src/app.py lines 12-16 and 25-71) -/

def REQUIRED_COLUMNS : List String := ["Name", "Phone", "Email"]

def OPTIONAL_COLUMNS : List String := ["Company", "Title", "State"]

def APP_COLUMNS : List String :=
  REQUIRED_COLUMNS ++ OPTIONAL_COLUMNS ++
    ["Status", "MeetingDateTime", "CallbackDateTime", "LastCallDateTime", "Attempts", "Notes"]

/-- The lower-case input names the normalizer recognizes (the loop list at
lines 29-30). -/
def recognizedCols : List String :=
  ["name", "phone", "email", "company", "title", "state", "status",
   "meetingdatetime", "callbackdatetime", "lastcalldatetime", "attempts", "notes"]

/-- The three recognized datetime keys (line 33). -/
def dtKeys : List String := ["meetingdatetime", "callbackdatetime", "lastcalldatetime"]

/-- `cols_lower = {c.lower(): c for c in df.columns}` (line 28): a later
column with the same lower-cased name overwrites an earlier one, so lookup
returns the last match. -/
def colsLower (t : Table) (key : String) : Option String :=
  ((t.map Prod.fst).reverse).find? fun c => pyLower c == key

/-- The renamed-to name for a recognized lower-case key (lines 33-38). -/
def renameTarget (col : String) : String :=
  if col ∈ dtKeys then pyReplace (pyCapitalize col) "datetime" "DateTime"
  else if col == "email" then "Email"
  else pyCapitalize col

/-- `rename_map` (lines 27-38): one entry per recognized key present in the
input. -/
def renameMapOf (t : Table) : List (String × String) :=
  recognizedCols.filterMap fun col =>
    (colsLower t col).map fun src => (src, renameTarget col)

/-- `df.rename(columns=rename_map)` (line 39): every column name is mapped
through the dictionary, names not in it are kept. -/
def renameCols (t : Table) : Table :=
  t.map fun p =>
    ((((renameMapOf t).find? fun q => q.1 == p.1).map Prod.snd).getD p.1, p.2)

/-- `len(df)`: the number of rows (length of the first column; a DataFrame
with no columns has no rows). -/
def nrowsOf (t : Table) : Nat := (t.head?.map fun p => p.2.length).getD 0

def hasCol (t : Table) (c : String) : Bool := t.any fun p => p.1 == c

/-- `if col not in df.columns: df[col] = v` — a missing column is appended,
broadcasting the scalar default to the row count. -/
def addDefault (t : Table) (n : Nat) (c : String) (v : Cell) : Table :=
  if hasCol t c then t else t ++ [(c, List.replicate n v)]

/-- Lines 42-56: ensure required/optional/app columns exist, in the order
the code adds them. -/
def addDefaults (t : Table) : Table :=
  let n := nrowsOf t
  let t1 := (REQUIRED_COLUMNS ++ OPTIONAL_COLUMNS).foldl
    (fun u c => addDefault u n c (.str "")) t
  let t2 := addDefault t1 n "Status" (.str "")
  let t3 := addDefault t2 n "MeetingDateTime" .na
  let t4 := addDefault t3 n "CallbackDateTime" .na
  let t5 := addDefault t4 n "LastCallDateTime" .na
  let t6 := addDefault t5 n "Attempts" (.int 0)
  addDefault t6 n "Notes" (.str "")

/-- A nonempty all-digit string read as a decimal number. -/
def decDigits? (l : List Char) : Option Nat :=
  if l ≠ [] ∧ l.all Char.isDigit then
    some (l.foldl (fun n c => n * 10 + (c.toNat - 48)) 0)
  else none

/-- Model of the lenient `pd.to_datetime` string parser, restricted to the
ISO-ish forms `YYYY-MM-DD`, `YYYY-MM-DD HH:MM` and `YYYY-MM-DD HH:MM:SS`
that the app's data uses; anything else parses to `NaT`.  (The real parser
accepts more formats; every accepted form still maps to a naive `PyDT`, so
the normalizer theorems are unaffected by the restriction.) -/
def parseDTString (s : String) : Option PyDT := do
  let parts := pySplit (pyStrip s) " "
  let (datePart, timePart) ←
    match parts with
    | [d] => some (d, none)
    | [d, t] => some (d, some t)
    | _ => none
  let (y, mo, da) ←
    match pySplit datePart "-" with
    | [ys, ms, ds] => do
      let y ← decDigits? ys.data
      let mo ← decDigits? ms.data
      let da ← decDigits? ds.data
      if 1 ≤ mo ∧ mo ≤ 12 ∧ 1 ≤ da ∧ da ≤ 31 then some (y, mo, da) else none
    | _ => none
  let (h, mi, se) ←
    match timePart with
    | none => some (0, 0, 0)
    | some t =>
      match pySplit t ":" with
      | [hs, ms] => do
        let h ← decDigits? hs.data
        let mi ← decDigits? ms.data
        if h ≤ 23 ∧ mi ≤ 59 then some (h, mi, 0) else none
      | [hs, ms, ss] => do
        let h ← decDigits? hs.data
        let mi ← decDigits? ms.data
        let se ← decDigits? ss.data
        if h ≤ 23 ∧ mi ≤ 59 ∧ se ≤ 59 then some (h, mi, se) else none
      | _ => none
  some ⟨secOfCivil (y : Int) mo da h mi se, none⟩

/-- One cell under `pd.to_datetime(·, errors='coerce')`: timestamps and
missing values are unchanged, strings are parsed leniently (unparseable
becomes `NaT`), a bare number is nanoseconds since the epoch (truncated to
the seconds our model carries). -/
def toDatetimeCell : Cell → Cell
  | .dt d => .dt d
  | .na => .na
  | .str s => match parseDTString s with
    | some d => .dt d
    | none => .na
  | .int i => .dt ⟨i.fdiv 1000000000, none⟩

/-- Line 59-63: coerce the three datetime columns. -/
def coerceDtCol (t : Table) (c : String) : Table :=
  t.map fun p => if p.1 == c then (p.1, p.2.map toDatetimeCell) else p

def coerceDts (t : Table) : Table :=
  coerceDtCol (coerceDtCol (coerceDtCol t "MeetingDateTime") "CallbackDateTime")
    "LastCallDateTime"

/-- Classification of one cell under `pd.to_numeric(·, errors='coerce')`:
the parsed value is missing (`NaN`), finite, or an infinity.  A finite
value is carried as the exact integer the `astype(int)` truncation toward
zero would produce (the float64 rounding of decimal strings is abstracted;
it is exact for the magnitudes the app handles). -/
inductive PdNum where
  | nan : PdNum
  | fin : Int → PdNum
  | inf : PdNum
  | ninf : PdNum
deriving DecidableEq

/-- The magnitude from which the float parser rounds to infinity: half an
ulp above the largest finite double, `2^1024 − 2^970` (spelled as a literal
so it evaluates without deep recursion; the equation below certifies it). -/
def f64Overflow : Int :=
  179769313486231580793728971405303415079934132710037826936173778980444968292764750946649017977587207096330286416692887910946555547851940402630657488671505820681908902000708383676273854845817711531764475730270069855571366959622842914819860834936475292719074168444365510704342711559699508093042880177904174497792

/-- The int64 range bound `2^63`, as a literal. -/
def int64Bound : Int := 9223372036854775808

/-- A signed decimal exponent: optional sign, then digits. -/
def parseExp? : List Char → Option Int
  | '-' :: ds => (decDigits? ds).map fun n => -(n : Int)
  | '+' :: ds => (decDigits? ds).map fun n => (n : Int)
  | ds => (decDigits? ds).map fun n => (n : Int)

/-- An unsigned float literal `digits[.digits][e[±]digits]` with at least
one mantissa digit (`"3"`, `"3.5"`, `"3."`, `".5"`, `"1e999"`), evaluated
exactly and truncated toward zero. -/
def parseUnsignedFloat? (l : List Char) : Option Nat :=
  let ip := l.takeWhile Char.isDigit
  let rest1 := l.drop ip.length
  let fp := if rest1.head? = some '.' then (rest1.drop 1).takeWhile Char.isDigit else []
  let rest2 := if rest1.head? = some '.' then (rest1.drop 1).drop fp.length else rest1
  if ip = [] ∧ fp = [] then none
  else
    match (match rest2 with
      | [] => some (0 : Int)
      | 'e' :: es => parseExp? es
      | _ => none) with
    | none => none
    | some ex =>
      let mant := (decDigits? (ip ++ fp)).getD 0
      let sh : Int := ex - (fp.length : Int)
      some (if 0 ≤ sh then mant * 10 ^ sh.toNat else mant / 10 ^ (-sh).toNat)

/-- One cell under `pd.to_numeric(·, errors='coerce')`, classified:
integers pass through, strings parse as Python floats (optional sign, then
a decimal/exponent numeral or a case-insensitive `inf`/`infinity`/`nan`,
overflowing to ±inf past the float64 range), anything unparseable or
missing is `NaN`; a datetime cell is its nanoseconds-since-epoch view. -/
def toNumericExt : Cell → PdNum
  | .na => PdNum.nan
  | .int i => PdNum.fin i
  | .dt d => PdNum.fin (d.sec * 1000000000)
  | .str s =>
    let l := (pyLower (pyStrip s)).data
    let sb : Bool × List Char :=
      match l with
      | '-' :: rest => (true, rest)
      | '+' :: rest => (false, rest)
      | _ => (false, l)
    let neg := sb.1
    let body := sb.2
    if body = "inf".data ∨ body = "infinity".data then
      if neg then PdNum.ninf else PdNum.inf
    else if body = "nan".data then PdNum.nan
    else
      match parseUnsignedFloat? body with
      | none => PdNum.nan
      | some n =>
        if f64Overflow ≤ (n : Int) then (if neg then PdNum.ninf else PdNum.inf)
        else PdNum.fin (if neg then -(n : Int) else (n : Int))

/-- The int64 cast `astype(int)` performs on one finite value: an in-range
value is exact; the out-of-range float→int64 C cast yields `INT64_MIN` on
the x86 builds pandas ships (numpy emits a RuntimeWarning, not an error). -/
def castInt64 (v : Int) : Int :=
  if -int64Bound ≤ v ∧ v < int64Bound then v else -int64Bound

/-- Line 65 on one cell of a column holding no infinity:
`pd.to_numeric(·, errors='coerce').fillna(0).astype(int)` — a missing or
unparseable cell becomes 0, a finite value is truncated and cast. -/
def attemptsFix (c : Cell) : Cell :=
  match toNumericExt c with
  | PdNum.fin v => .int (castInt64 v)
  | _ => .int 0

/-- Whether some cell of the column parses to an infinity, on which
`astype(int)` raises (`fillna(0)` has already replaced the NaNs). -/
def hasInfCell (vs : List Cell) : Bool :=
  vs.any fun x => toNumericExt x == PdNum.inf || toNumericExt x == PdNum.ninf

/-- Lines 64-67: the guarded Attempts coercion.  When no cell parses to an
infinity the column is coerced cell-wise; otherwise `astype(int)` raises
(`ValueError: Cannot convert non-finite values (NA or inf) to integer`),
the `except Exception: pass` swallows it, and the column is left exactly
as it was — raw, uncoerced values included. -/
def coerceAttemptsVals (vs : List Cell) : List Cell :=
  if hasInfCell vs then vs else vs.map attemptsFix

def coerceAttempts (t : Table) : Table :=
  t.map fun p => if p.1 == "Attempts" then (p.1, coerceAttemptsVals p.2) else p

/-- `df[c]` for a (unique) column name. -/
def colVals (t : Table) (c : String) : Option (List Cell) :=
  (t.find? fun p => p.1 == c).map Prod.snd

/-- Line 70: `df[[c for c in APP_COLUMNS if c in df.columns]]`. -/
def reorderCols (t : Table) : Table :=
  APP_COLUMNS.filterMap fun c => (colVals t c).map fun vs => (c, vs)

/-- `_standardize_columns` (lines 25-71). -/
def standardizeColumns (t : Table) : Table :=
  reorderCols (coerceAttempts (coerceDts (addDefaults (renameCols t))))

/-- Modelled from the spec: spreadsheet serialization is excluded from the
core (§1 treats import/export as "read tabular data into records / write
records to tabular data" by external collaborators), so exporting the
canonical table writes it back as tabular data unchanged. -/
def exportTable (t : Table) : Table := t

/-- The input columns have pairwise distinct lower-cased names — the regime
in which a DataFrame keyed by (case-insensitive) column names is faithfully
a list of named columns.  (`read_excel` already de-duplicates exactly equal
header names.) -/
abbrev NodupLower (t : Table) : Prop := (t.map fun p => pyLower p.1).Nodup

/-- Every column has the same number of rows (DataFrames are rectangular). -/
abbrev Rectangular (t : Table) : Prop := ∀ p ∈ t, p.2.length = nrowsOf t

/-! ## Template renderer (`_render_template` and helpers, lines 84-127) -/

/-- `_first_name` (lines 84-86). -/
def firstName (fullName : String) : String :=
  let s := pyStrip fullName
  if s = "" then "" else (pySplit s " ").headD ""

/-- The civil date `(y, m, d)` of a timestamp's wall-clock value. -/
def dtCivil (d : PyDT) : Int × Nat × Nat := civilFromDays (d.sec.fdiv 86400)

/-- Wall-clock second-of-day of a timestamp. -/
def dtSod (d : PyDT) : Nat := (d.sec - d.sec.fdiv 86400 * 86400).toNat

def dtHour (d : PyDT) : Nat := dtSod d / 3600

def dtMinute (d : PyDT) : Nat := dtSod d % 3600 / 60

def dtSecond (d : PyDT) : Nat := dtSod d % 60

/-- `_fmt_date` (lines 88-96) on a present timestamp:
`strftime("%B %d, %Y")`. -/
def fmtDateLong (d : PyDT) : String :=
  let c := dtCivil d
  monthName c.2.1 ++ " " ++ pad2 c.2.2 ++ ", " ++ toString c.1.toNat

/-- `_fmt_time` (lines 98-106) on a present timestamp:
`strftime("%I:%M %p").lstrip('0')`. -/
def fmtTime12 (d : PyDT) : String :=
  let h := dtHour d
  let h12 := (h + 11) % 12 + 1
  let ap := if h < 12 then "AM" else "PM"
  ⟨(pad2 h12 ++ ":" ++ pad2 (dtMinute d) ++ " " ++ ap).data.dropWhile fun c => c = '0'⟩

/-- `str(timestamp)` as pandas prints it: `YYYY-MM-DD HH:MM:SS`, with a
`±HH:MM` suffix for a zone-carrying value. -/
def strTimestamp (d : PyDT) : String :=
  let c := dtCivil d
  let base := pad4 c.1.toNat ++ "-" ++ pad2 c.2.1 ++ "-" ++ pad2 c.2.2 ++ " " ++
    pad2 (dtHour d) ++ ":" ++ pad2 (dtMinute d) ++ ":" ++ pad2 (dtSecond d)
  match d.off with
  | none => base
  | some o =>
    base ++ (if o < 0 then "-" else "+") ++ pad2 (o.natAbs / 3600) ++ ":" ++
      pad2 (o.natAbs % 3600 / 60)

/-- Model of Python `str.format(**mapping)` restricted to the plain named
placeholders the app uses: `\x7b\x7bkey\x7d\x7d` escapes produce literal braces, `\x7bkey\x7d`
substitutes the bound string, and every failure Python reports as an
exception — an unbound or empty field name, a lone closing brace, an
unterminated or nested field — is `none`.  (Conversion/format-spec syntax
such as `\x7bkey:>10\x7d` is not modelled and also yields `none`; the app's
templates never use it.)  Fuel-based: every step consumes at least one
character, so `fuel = length + 1` never runs out. -/
def pyFormatCore (m : List (String × String)) : Nat → List Char → Option (List Char)
  | 0, _ => none
  | _ + 1, [] => some []
  | fuel + 1, '{' :: rest =>
    match rest with
    | '{' :: rest2 => (pyFormatCore m fuel rest2).map fun r => '{' :: r
    | _ =>
      let key := rest.takeWhile fun c => c ≠ '}' ∧ c ≠ '{'
      match rest.drop key.length with
      | '}' :: rest3 =>
        match m.find? fun p => p.1.data == key with
        | some p => (pyFormatCore m fuel rest3).map fun r => p.2.data ++ r
        | none => none
      | _ => none
  | fuel + 1, '}' :: rest =>
    match rest with
    | '}' :: rest2 => (pyFormatCore m fuel rest2).map fun r => '}' :: r
    | _ => none
  | fuel + 1, c :: rest => (pyFormatCore m fuel rest).map fun r => c :: r

/-- `tmpl.format(**mapping)`; `none` models a raised exception. -/
def pyFormat (tmpl : String) (m : List (String × String)) : Option String :=
  (pyFormatCore m (tmpl.data.length + 1) tmpl.data).map fun l => (⟨l⟩ : String)

/-- The placeholder bindings `_render_template` computes (lines 109-118). -/
def renderMapping (row : Row) : List (String × String) :=
  [("name", row.name),
   ("first_name", firstName row.name),
   ("company", row.company),
   ("meeting_datetime", match row.meeting with | none => "" | some d => strTimestamp d),
   ("meeting_date", match row.meeting with | none => "" | some d => fmtDateLong d),
   ("meeting_time", match row.meeting with | none => "" | some d => fmtTime12 d)]

/-- `_render_template` (lines 108-127): subject and body are substituted
independently, each falling back to its raw template on any failure. -/
def renderTemplate (row : Row) (subjectTmpl bodyTmpl : String) : String × String :=
  ((pyFormat subjectTmpl (renderMapping row)).getD subjectTmpl,
   (pyFormat bodyTmpl (renderMapping row)).getD bodyTmpl)

/-! ## Calendar invite encoder (`_ics_event_bytes`, lines 267-308, and the
bulk assembly loop, lines 320-332) -/

/-- The exceptions `_ics_event_bytes` can raise: `ZoneInfoNotFoundError`
from `ZoneInfo(tzname)` (line 276) and the `KeyError`/`ValueError` of the
un-guarded `desc_template.format(...)` (line 287). -/
inductive IcsErr where
  | badTz (name : String)
  | formatError
deriving DecidableEq

/-- The five VCALENDAR header lines (lines 289-293, also lines 326). -/
def icsCalHeader : List String :=
  ["BEGIN:VCALENDAR", "VERSION:2.0", "PRODID:-//Prospecting Manager//EN",
   "CALSCALE:GREGORIAN", "METHOD:PUBLISH"]

/-- Lines 275-279 of `_ics_event_bytes`: the offset function used for the
UTC conversions.  A naive timestamp is localized via `ZoneInfo(tzname)` —
an unknown name raises — while a zone-carrying timestamp is used as-is and
the zone name is never consulted. -/
def icsResolveOfs (zdb : ZoneDb) (tzname : String) (m : PyDT) :
    Except IcsErr (Int → Int) :=
  match m.off with
  | none =>
    match zdb tzname with
    | some z => Except.ok z.offsetAt
    | none => Except.error (IcsErr.badTz tzname)
  | some o => Except.ok fun _ => o

/-- The VEVENT body lines of `_ics_event_bytes` for a present meeting
timestamp `m` (lines 274-306): everything between `BEGIN:VEVENT` and
`END:VEVENT`.  Nondeterministic inputs are parameters: `nowUtcSec` models
`datetime.utcnow()` and `uuid` the fresh `uuid.uuid4()` string. -/
def icsVeventLines (zdb : ZoneDb) (row : Row) (m : PyDT) (tzname : String)
    (durationMin : Int) (organizerName organizerEmail location descTemplate : String)
    (nowUtcSec : Int) (uuid : String) : Except IcsErr (List String) :=
  let name := pyStrip row.name
  let company := pyStrip row.company
  let notes := pyStrip row.notes
  match icsResolveOfs zdb tzname m with
  | Except.error e => Except.error e
  | Except.ok ofs =>
    let startLocal := m.sec
    let endLocal := startLocal + durationMin * 60
    let startUtc := startLocal - ofs startLocal
    let endUtc := endLocal - ofs endLocal
    let summary :=
      if company == "" then "Meeting – " ++ name
      else "Meeting – " ++ name ++ " (" ++ company ++ ")"
    match pyFormat descTemplate [("name", name), ("company", company), ("notes", notes)] with
    | none => Except.error IcsErr.formatError
    | some description =>
      let core := ["UID:" ++ uuid ++ "@prospecting-app",
        "DTSTAMP:" ++ strftimeZ nowUtcSec,
        "DTSTART:" ++ strftimeZ startUtc,
        "DTEND:" ++ strftimeZ endUtc,
        "SUMMARY:" ++ summary,
        "DESCRIPTION:" ++ pyReplace description "\n" "\\n",
        "LOCATION:" ++ location,
        "ORGANIZER;CN=" ++ organizerName ++ ":mailto:" ++ organizerEmail]
      let email := pyStrip row.email
      Except.ok
        (if email ≠ "" then
          core ++ ["ATTENDEE;CN=" ++ name ++ ";ROLE=REQ-PARTICIPANT:mailto:" ++ email]
        else core)

/-- The full line list of a single invite document. -/
def icsEventLinesE (zdb : ZoneDb) (row : Row) (tzname : String) (durationMin : Int)
    (organizerName organizerEmail location descTemplate : String)
    (nowUtcSec : Int) (uuid : String) : Except IcsErr (List String) :=
  match row.meeting with
  | none => Except.ok []
  | some m =>
    (icsVeventLines zdb row m tzname durationMin organizerName organizerEmail location
        descTemplate nowUtcSec uuid).map
      fun core => icsCalHeader ++ ["BEGIN:VEVENT"] ++ core ++ ["END:VEVENT", "END:VCALENDAR"]

/-- `_ics_event_bytes` (lines 267-308): the empty string models the `b""`
returned for a missing meeting timestamp (line 273); otherwise the lines
are joined by CRLF with a trailing CRLF (line 308). -/
def icsEventBytes (zdb : ZoneDb) (row : Row) (tzname : String) (durationMin : Int)
    (organizerName organizerEmail location descTemplate : String)
    (nowUtcSec : Int) (uuid : String) : Except IcsErr String :=
  match row.meeting with
  | none => Except.ok ""
  | some m =>
    (icsVeventLines zdb row m tzname durationMin organizerName organizerEmail location
        descTemplate nowUtcSec uuid).map
      fun core =>
        joinCRLF (icsCalHeader ++ ["BEGIN:VEVENT"] ++ core ++ ["END:VEVENT", "END:VCALENDAR"]) ++
          "\r\n"

/-- The spec's view of timezone resolution (§4.3): a naive timestamp is
interpreted in the named zone, a zone-carrying one in its own fixed
offset. -/
def resolvedTz (zdb : ZoneDb) (tzname : String) (m : PyDT) : Option Tz :=
  match m.off with
  | some o => some ⟨fun _ => o⟩
  | none => zdb tzname

/-- The spec's UTC instant of the event start: the wall-clock start minus
the zone's offset at that wall-clock time. -/
def specStartUtc (z : Tz) (m : PyDT) : Int := m.sec - z.offsetAt m.sec

/-- The spec's UTC instant of the event end (`start + durationMinutes`). -/
def specEndUtc (z : Tz) (m : PyDT) (durationMin : Int) : Int :=
  m.sec + durationMin * 60 - z.offsetAt (m.sec + durationMin * 60)

/-- The event-collection loop of the bulk button (lines 320-324): one
`_ics_event_bytes` call per record (each with its own fresh uuid), keeping
the non-empty results in order. -/
def collectEvents (zdb : ZoneDb) (tzname : String) (durationMin : Int)
    (organizerName organizerEmail location descTemplate : String) (nowUtcSec : Int) :
    List (Row × String) → Except IcsErr (List String)
  | [] => Except.ok []
  | (r, u) :: rest =>
    match icsEventBytes zdb r tzname durationMin organizerName organizerEmail location
      descTemplate nowUtcSec u with
    | Except.error e => Except.error e
    | Except.ok b =>
      match collectEvents zdb tzname durationMin organizerName organizerEmail location
        descTemplate nowUtcSec rest with
      | Except.error e => Except.error e
      | Except.ok es => Except.ok (if b ≠ "" then b :: es else es)

/-- One iteration of the bulk loop (lines 327-330): split the serialized
event on `BEGIN:VEVENT`; when a `VEVENT` was found, cut the piece after it
at `END:VCALENDAR` and `END:VEVENT` and re-wrap the extracted fragment. -/
def chunkOf (e : String) : Option String :=
  let inner := pySplit e "BEGIN:VEVENT"
  if 1 < inner.length then
    some ("BEGIN:VEVENT" ++
      ((pySplit ((pySplit (inner.getD 1 "") "END:VCALENDAR").headD "") "END:VEVENT").headD "")
      ++ "END:VEVENT")
  else none

/-- The textual-marker bulk assembly (lines 326-332): each serialized event
is re-split on `BEGIN:VEVENT`, the extracted fragments are appended to the
header lines, and the whole is closed and joined by CRLF. -/
def bulkAssemble (events : List String) : String :=
  let bulk := events.foldl
    (fun acc e =>
      match chunkOf e with
      | some ch => acc ++ [ch]
      | none => acc)
    icsCalHeader
  joinCRLF (bulk ++ ["END:VCALENDAR"]) ++ "\r\n"

/-- The whole bulk path of the source: collect serialized events, then
string-split them back apart (lines 320-332). -/
def bulkIcs (zdb : ZoneDb) (tzname : String) (durationMin : Int)
    (organizerName organizerEmail location descTemplate : String) (nowUtcSec : Int)
    (pairs : List (Row × String)) : Except IcsErr String :=
  (collectEvents zdb tzname durationMin organizerName organizerEmail location descTemplate
      nowUtcSec pairs).map bulkAssemble

/-- The spec's bulk encoding (§4.3): the structured list of per-event VEVENT
bodies, skipping records without a meeting timestamp. -/
def collectVevents (zdb : ZoneDb) (tzname : String) (durationMin : Int)
    (organizerName organizerEmail location descTemplate : String) (nowUtcSec : Int) :
    List (Row × String) → Except IcsErr (List (List String))
  | [] => Except.ok []
  | (r, u) :: rest =>
    match r.meeting with
    | none => collectVevents zdb tzname durationMin organizerName organizerEmail location
        descTemplate nowUtcSec rest
    | some m =>
      match icsVeventLines zdb r m tzname durationMin organizerName organizerEmail location
        descTemplate nowUtcSec u with
      | Except.error e => Except.error e
      | Except.ok v =>
        match collectVevents zdb tzname durationMin organizerName organizerEmail location
          descTemplate nowUtcSec rest with
        | Except.error e => Except.error e
        | Except.ok vs => Except.ok (v :: vs)

/-- The CRLF separator as characters. -/
def crlf : List Char := ['\r', '\n']

/-- The per-event body lines joined by CRLF, at the character level. -/
def coreJoined (v : List String) : List Char := interChars crlf (v.map String.data)

/-- The serialized single-event document of a per-event body `v` — what
`_ics_event_bytes` returns for it. -/
def evString (v : List String) : String :=
  joinCRLF (icsCalHeader ++ ["BEGIN:VEVENT"] ++ v ++ ["END:VEVENT", "END:VCALENDAR"]) ++
    "\r\n"

/-- The chunk the bulk loop re-wraps for a per-event body. -/
def blockString (v : List String) : String :=
  "BEGIN:VEVENT" ++ (⟨crlf ++ coreJoined v ++ crlf⟩ : String) ++ "END:VEVENT"

/-- The content of a per-event body avoids the three textual markers the
bulk loop splits on: `BEGIN:VEVENT` does not occur after the structural one
(first conjunct), and neither `END:VCALENDAR` nor `END:VEVENT` occurs
before its structural occurrence (the `dropLast` extensions also exclude
occurrences straddling into the marker itself). -/
abbrev MarkerFree (v : List String) : Prop :=
  hasSub "BEGIN:VEVENT".data
      (crlf ++ coreJoined v ++ crlf ++ "END:VEVENT".data ++ crlf ++
        "END:VCALENDAR".data ++ crlf) = false ∧
  hasSub "END:VCALENDAR".data
      (crlf ++ coreJoined v ++ crlf ++ "END:VEVENT".data ++ crlf ++
        "END:VCALENDAR".data.dropLast) = false ∧
  hasSub "END:VEVENT".data
      (crlf ++ coreJoined v ++ crlf ++ "END:VEVENT".data.dropLast) = false

/-- The spec's structured composition of a bulk document (§4.3): a single
VCALENDAR header/footer around the concatenated per-event blocks. -/
def bulkStructured (cores : List (List String)) : String :=
  joinCRLF (icsCalHeader ++
      (cores.map fun c => ["BEGIN:VEVENT"] ++ c ++ ["END:VEVENT"]).flatten ++
      ["END:VCALENDAR"]) ++ "\r\n"

/-- The CRLF-joined five header lines, as characters. -/
def hdrData : List Char := interChars crlf (icsCalHeader.map String.data)

/-- The line list of one VEVENT block, at the character level. -/
def blkLines (c : List String) : List (List Char) :=
  "BEGIN:VEVENT".data :: (c.map String.data ++ ["END:VEVENT".data])

/-- The characters of one re-wrapped VEVENT block. -/
def blockData (c : List String) : List Char :=
  "BEGIN:VEVENT".data ++ (crlf ++ coreJoined c ++ crlf) ++ "END:VEVENT".data

/-- Bulk-path sample records: two with a meeting timestamp, one without. -/
def c8RowA : Row :=
  { name := "Ana Silva", company := "Acme", email := "ana@acme.com",
    meeting := some ⟨secOfCivil 2025 3 4 14 30 0, none⟩ }

def c8RowB : Row := { name := "Bob", meeting := some ⟨secOfCivil 2025 3 5 9 0 0, none⟩ }

def c8RowC : Row := { name := "Cara" }

def c8Pairs : List (Row × String) := [(c8RowA, "u1"), (c8RowC, "u2"), (c8RowB, "u3")]

/-- The per-event bodies the structured composition produces on `c8Pairs`. -/
def c8Vs : List (List String) :=
  (collectVevents zdb0 "America/New_York" 30 "Org" "org@example.com" "HQ"
    "Call with {name}" 0 c8Pairs).toOption.getD []

/-- A record whose notes smuggle a structural marker into the DESCRIPTION
line of its serialized invite. -/
def c8EvilRow : Row :=
  { name := "Eve", notes := "END:VEVENT",
    meeting := some ⟨secOfCivil 2025 3 4 14 30 0, none⟩ }

def c8EvilPairs : List (Row × String) := [(c8EvilRow, "u1")]

/-! ## Analytics aggregator (lines 414-473) -/

/-- `Attempted` (line 415): positive attempts or a non-empty status. -/
def attemptedB (r : Row) : Bool := (0 < r.attempts) || (0 < r.status.length)

/-- `IsYes` (line 416): status equals `"yes"` case-insensitively. -/
def isYesB (r : Row) : Bool := pyLower r.status == "yes"

/-- Code-point lexicographic order on strings (the pandas/Python string
order, for the ASCII data the app handles). -/
def lexLe : List Char → List Char → Bool
  | [], _ => true
  | _ :: _, [] => false
  | a :: as, b :: bs => if a = b then lexLe as bs else decide (a < b)

def strLe (a b : String) : Bool := lexLe a.data b.data

/-- Insertion of one element into a sorted list (model of the pandas
`sort_values` ordering contract: the output is sorted by the comparator;
order of fully tied elements is unspecified by the spec's claims). -/
def insertBy (le : α → α → Bool) (a : α) : List α → List α
  | [] => [a]
  | b :: bs => if le a b then a :: b :: bs else b :: insertBy le a bs

def sortBy (le : α → α → Bool) : List α → List α
  | [] => []
  | a :: as => insertBy le a (sortBy le as)

/-- Round `num / den` to the nearest integer, ties to even (the IEEE /
numpy `round` rule), for `den > 0`. -/
def roundHalfEvenDiv (num den : Nat) : Nat :=
  let q := num / den
  let r := num % den
  if 2 * r < den then q
  else if den < 2 * r then q + 1
  else if q % 2 = 0 then q else q + 1

/-- The stored `yes_rate` of line 437, `round(yes / attempted * 100, 1)`,
carried exactly as tenths of a percent. -/
def rate10 (yes attempted : Nat) : Nat := roundHalfEvenDiv (yes * 1000) attempted

/-- One row of a grouped rate table: `n`, `attempted`, `yes` as in the
aggregation of lines 431-435, with `yesRate10` the rounded rate in tenths
of a percent. -/
structure RateRow where
  key : String
  n : Nat
  attempted : Nat
  yes : Nat
  yesRate10 : Nat
deriving DecidableEq

/-- The descending (rate, attempted) comparator of line 438
(`ascending=[False, False]`). -/
def rateDescLe (a b : RateRow) : Bool :=
  decide (b.yesRate10 < a.yesRate10 ∨ (a.yesRate10 = b.yesRate10 ∧ b.attempted ≤ a.attempted))

/-- One group's aggregation (lines 431-435): size, attempted sum, yes sum. -/
def rateAgg (groupVal : Row → String) (rows : List Row) (k : String) : RateRow :=
  { key := k
    n := (rows.filter fun r => groupVal r == k).length
    attempted := (rows.filter fun r => groupVal r == k && attemptedB r).length
    yes := (rows.filter fun r => groupVal r == k && isYesB r).length
    yesRate10 := 0 }

/-- Line 437: fill in the rounded rate. -/
def rateFill (x : RateRow) : RateRow := { x with yesRate10 := rate10 x.yes x.attempted }

/-- `rate_table` (lines 428-439).  `groupVal` plays the role of
`tmp[group_col].fillna("").replace(\x7bNone: ""\x7d)` — the selector already
yields the empty string for a missing value.  pandas `groupby` sorts group
keys ascending before the rate sort. -/
def rate_table (groupVal : Row → String) (rows : List Row) (topN : Nat := 15) :
    List RateRow :=
  let keys := sortBy strLe (rows.map groupVal).dedup
  let grp := (keys.map (rateAgg groupVal rows)).filter fun x => 0 < x.attempted
  (sortBy rateDescLe (grp.map rateFill)).take topN

/-- `_touch_datetime` (lines 138-144): first present among LastCall,
Callback, Meeting. -/
def touch_datetime (r : Row) : Option PyDT :=
  match r.lastCall with
  | some d => some d
  | none =>
    match r.callback with
    | some d => some d
    | none =>
      match r.meeting with
      | some d => some d
      | none => none

/-- The spec's wording of the touch timestamp (§4.4): the first present
value among lastCall, callback, meeting. -/
def specTouch (r : Row) : Option PyDT :=
  (r.lastCall.orElse fun _ => r.callback).orElse fun _ => r.meeting

/-- `dt.day_name()` of a timestamp's wall-clock value (1970-01-01 was a
Thursday). -/
def dayNameOf (d : PyDT) : String :=
  weekdayNames.getD ((d.sec.fdiv 86400 + 3).emod 7).toNat ""

/-- One row of the weekday table. -/
structure WkRow where
  day : String
  attempted : Nat
  yes : Nat
  yesRate10 : Nat
deriving DecidableEq

/-- The weekday of a row's touch timestamp (empty for no touch; such rows
are filtered out before this is consulted). -/
def wdOf (r : Row) : String := ((touch_datetime r).map dayNameOf).getD ""

/-- One weekday group's aggregation (lines 458-459 / 466-467 analog). -/
def wkAgg (valid : List Row) (k : String) : WkRow :=
  { day := k
    attempted := (valid.filter fun r => wdOf r == k && attemptedB r).length
    yes := (valid.filter fun r => wdOf r == k && isYesB r).length
    yesRate10 := 0 }

def wkFill (x : WkRow) : WkRow := { x with yesRate10 := rate10 x.yes x.attempted }

/-- The weekday table `wk_grp` (lines 450-472): records with no touch
timestamp are dropped, grouping is by weekday name (pandas sorts group
keys alphabetically), groups with zero attempted are dropped, the rate is
computed, and `reindex(weekday_order).dropna(how='all')` keeps the
Monday→Sunday ordering of the weekdays that remain. -/
def wk_grp (rows : List Row) : List WkRow :=
  let valid := rows.filter fun r => (touch_datetime r).isSome
  let keys := sortBy strLe (valid.map wdOf).dedup
  let grp := ((keys.map (wkAgg valid)).filter fun x => 0 < x.attempted).map wkFill
  weekdayNames.filterMap fun w => grp.find? fun x => x.day == w

/-! ## Derived forms used by the normalizer proofs -/

/-- The name a column carries after `df.rename(columns=rename_map)`
(line 39), for a table whose lower-cased column names are distinct: a
recognized name is sent to its rename target, any other name is kept. -/
def canonName (s : String) : String :=
  if pyLower s ∈ recognizedCols then renameTarget (pyLower s) else s

/-- The default a synthesized canonical column is filled with
(lines 42-56). -/
def defaultCell (c : String) : Cell :=
  if c = "MeetingDateTime" ∨ c = "CallbackDateTime" ∨ c = "LastCallDateTime" then .na
  else if c = "Attempts" then .int 0
  else .str ""

/-- The canonical columns in the order the code adds their defaults, with
the default each one receives. -/
def defaultsList : List (String × Cell) :=
  [("Name", .str ""), ("Phone", .str ""), ("Email", .str ""), ("Company", .str ""),
   ("Title", .str ""), ("State", .str ""), ("Status", .str ""),
   ("MeetingDateTime", .na), ("CallbackDateTime", .na), ("LastCallDateTime", .na),
   ("Attempts", .int 0), ("Notes", .str "")]

/-- The input column feeding canonical output column `c`: the (unique,
under `NodupLower`) input column whose lower-cased name matches — except
that nothing feeds `LastCallDateTime`, whose rename target is the mangled
name `LastcallDateTime` that the final column selection drops. -/
def srcVals (t : Table) (c : String) : Option (List Cell) :=
  if c = "LastCallDateTime" then none
  else (t.find? fun p => pyLower p.1 == pyLower c).map Prod.snd

/-- The values of canonical output column `c` of `_standardize_columns t`:
the matched input column (or the default), coerced per column kind. -/
def stdColVals (t : Table) (c : String) : List Cell :=
  let raw := (srcVals t c).getD (List.replicate (nrowsOf t) (defaultCell c))
  if c = "MeetingDateTime" ∨ c = "CallbackDateTime" ∨ c = "LastCallDateTime" then
    raw.map toDatetimeCell
  else if c = "Attempts" then coerceAttemptsVals raw
  else raw

instance {ε α : Type} [DecidableEq ε] [DecidableEq α] : DecidableEq (Except ε α) := fun
  | .ok a, .ok b => if h : a = b then .isTrue (by rw [h]) else .isFalse (by simp [h])
  | .ok _, .error _ => .isFalse (by simp)
  | .error _, .ok _ => .isFalse (by simp)
  | .error e, .error f => if h : e = f then .isTrue (by rw [h]) else .isFalse (by simp [h])

/-! ## List helpers -/

/-- The concrete table used by the C1 witness: case-variant recognized
columns, an unparseable timestamp, a missing attempts value, and an
unrecognized column. -/
def c1Probe : Table :=
  [("nAmE", [Cell.str "Ana", Cell.str "Bo"]),
   ("ATTEMPTS", [Cell.str "2", Cell.na]),
   ("meetingdatetime", [Cell.str "2025-03-04 14:30", Cell.str "junk"]),
   ("Extra", [Cell.int 7, Cell.int 8])]

/-- The single-column probe exercising the LastCall import path. -/
def c5Probe : Table := [("LastCallDateTime", [Cell.str "2025-01-02 03:04"])]

/-- The probe with a negative textual Attempts value. -/
def c4Probe : Table := [("Attempts", [Cell.str "-3"])]

/-- The concrete table for the C4 witness: textual-non-numeric, missing,
negative, and plain integer sources. -/
def c4WitProbe : Table :=
  [("ATTEMPTS", [Cell.str "x", Cell.na, Cell.str "-3", Cell.int 4])]

/-- A raw Attempts column containing an infinity: `astype(int)` raises and
the guarded coercion leaves all three cells — strings included — as they
are. -/
def c4InfCol : List Cell := [Cell.str "inf", Cell.str "abc", Cell.str "-3"]

/-- The record used by the C6 witness. -/
def c6Row : Row := { name := "Jane Doe", company := "Acme" }

/-- The concrete record of the spec's C2 scenario. -/
def anaDT : PyDT := ⟨secOfCivil 2025 3 4 14 30 0, none⟩

def anaRow : Row :=
  { name := "Ana Lopez"
    company := "Acme"
    email := "ana@acme.com"
    meeting := some anaDT
    status := "Yes" }

/-- The full line list of Ana's invite with duration 30, organizer "O"
`<oe>`, location "L", description template "d", DTSTAMP instant 0, uuid
"u". -/
def anaLines : List String :=
  ["BEGIN:VCALENDAR", "VERSION:2.0", "PRODID:-//Prospecting Manager//EN",
   "CALSCALE:GREGORIAN", "METHOD:PUBLISH", "BEGIN:VEVENT", "UID:u@prospecting-app",
   "DTSTAMP:19700101T000000Z", "DTSTART:20250304T193000Z", "DTEND:20250304T200000Z",
   "SUMMARY:Meeting – Ana Lopez (Acme)", "DESCRIPTION:d", "LOCATION:L",
   "ORGANIZER;CN=O:mailto:oe",
   "ATTENDEE;CN=Ana Lopez;ROLE=REQ-PARTICIPANT:mailto:ana@acme.com",
   "END:VEVENT", "END:VCALENDAR"]

/-- The zone-carrying record for the C9 counterexample. -/
def c9Row : Row := { name := "A", meeting := some ⟨0, some (-18000)⟩ }

/-- The naive-meeting record for the C9 witness. -/
def c9NaiveRow : Row := { name := "A", meeting := some ⟨0, none⟩ }

/-- The record list of the C3 counterexample: one group "A" with three
attempted and one converted. -/
def c3Rows : List Row :=
  [{ company := "A", attempts := 1, status := "Yes" },
   { company := "A", attempts := 1 },
   { company := "A", attempts := 1 }]

/-- The record list of the C3 witness. -/
def c3WitRows : List Row :=
  [{ company := "A", attempts := 1, status := "Yes" },
   { company := "A", attempts := 1 },
   { company := "B", attempts := 1, status := "Yes" },
   { company := "C" }]

/-- The record lists of the C10 witness: a Friday touch, a Monday touch,
and a record with no touch timestamps at all. -/
def c10Rows : List Row :=
  [{ lastCall := some ⟨secOfCivil 2025 3 7 10 0 0, none⟩, attempts := 1 },
   { lastCall := some ⟨secOfCivil 2025 3 3 10 0 0, none⟩, attempts := 1,
     status := "Yes" }]

def c10NoTouch : Row := { name := "n", attempts := 5 }

theorem find?_eq_of_nodup_map {α β : Type} [DecidableEq β] (f : α → β) :
    ∀ (l : List α) (a : α), (l.map f).Nodup → a ∈ l →
      l.find? (fun c => f c == f a) = some a := by
  intro l
  induction l with
  | nil => intro a _ ha; exact absurd ha (List.not_mem_nil a)
  | cons b l ih =>
    intro a hnd ha
    rw [List.map_cons, List.nodup_cons] at hnd
    by_cases hba : f b = f a
    · have hab : a = b := by
        rcases List.mem_cons.mp ha with h | h
        · exact h
        · exact absurd (hba ▸ List.mem_map_of_mem f h) hnd.1
      subst hab
      exact List.find?_cons_of_pos _ (beq_iff_eq.mpr hba)
    · have ha' : a ∈ l := by
        rcases List.mem_cons.mp ha with h | h
        · exact absurd (by rw [h]) hba
        · exact h
      rw [List.find?_cons_of_neg _ (by simpa using hba)]
      exact ih a hnd.2 ha'

/-! ## Normalizer: what each stage does to a column -/

theorem hasCol_eq_isSome (t : Table) (c : String) : hasCol t c = (colVals t c).isSome := by
  induction t with
  | nil => rfl
  | cons p t ih =>
    unfold hasCol colVals
    cases h : (p.1 == c) with
    | true => simp [List.any_cons, h, List.find?_cons_of_pos _ h]
    | false =>
      simp only [List.any_cons, h, Bool.false_or]
      rw [List.find?_cons_of_neg _ (by simp [h])]
      exact ih

theorem colVals_append (t u : Table) (c : String) :
    colVals (t ++ u) c = (colVals t c).or (colVals u c) := by
  unfold colVals
  rw [List.find?_append]
  cases t.find? fun p => p.1 == c <;> simp [Option.or]

theorem colVals_addDefault_ne (t : Table) (n : Nat) (c c' : String) (v : Cell)
    (h : c ≠ c') : colVals (addDefault t n c' v) c = colVals t c := by
  unfold addDefault
  by_cases hc : hasCol t c' = true
  · rw [if_pos hc]
  · rw [if_neg hc, colVals_append]
    have hone : colVals [(c', List.replicate n v)] c = none := by
      unfold colVals
      rw [List.find?_cons_of_neg _ (by simp [Ne.symm h])]
      rfl
    rw [hone]
    cases colVals t c <;> rfl

theorem colVals_addDefault_self (t : Table) (n : Nat) (c : String) (v : Cell) :
    colVals (addDefault t n c v) c = some ((colVals t c).getD (List.replicate n v)) := by
  unfold addDefault
  rw [hasCol_eq_isSome]
  cases h : colVals t c with
  | some vs => simp [h]
  | none =>
    simp only [h, Option.isSome_none, Bool.false_eq_true, if_false]
    rw [colVals_append, h]
    unfold colVals
    rw [List.find?_cons_of_pos _ (by simp)]
    rfl

theorem colVals_foldl_addDefault_not_mem (n : Nat) (c : String) :
    ∀ (ps : List (String × Cell)) (t : Table), c ∉ ps.map Prod.fst →
      colVals (ps.foldl (fun u p => addDefault u n p.1 p.2) t) c = colVals t c := by
  intro ps
  induction ps with
  | nil => intro t _; rfl
  | cons p ps ih =>
    intro t h
    rw [List.map_cons, List.mem_cons] at h
    push_neg at h
    rw [List.foldl_cons, ih _ h.2, colVals_addDefault_ne _ _ _ _ _ h.1]

theorem colVals_foldl_addDefault_mem (n : Nat) (c : String) (v : Cell) :
    ∀ (ps : List (String × Cell)) (t : Table), (ps.map Prod.fst).Nodup → (c, v) ∈ ps →
      colVals (ps.foldl (fun u p => addDefault u n p.1 p.2) t) c =
        some ((colVals t c).getD (List.replicate n v)) := by
  intro ps
  induction ps with
  | nil => intro t _ h; exact absurd h (List.not_mem_nil _)
  | cons p ps ih =>
    intro t hnd hm
    rw [List.map_cons, List.nodup_cons] at hnd
    rw [List.foldl_cons]
    rcases List.mem_cons.mp hm with h | h
    · have hp1 : p.1 = c := by rw [← h]
      have hni : c ∉ ps.map Prod.fst := hp1 ▸ hnd.1
      rw [colVals_foldl_addDefault_not_mem n c ps _ hni, ← h, colVals_addDefault_self]
    · have hcm : c ∈ ps.map Prod.fst := List.mem_map_of_mem Prod.fst h
      have hne : c ≠ p.1 := fun e => hnd.1 (e ▸ hcm)
      rw [ih _ hnd.2 h, colVals_addDefault_ne _ _ _ _ _ hne]

theorem addDefaults_eq_foldl (t : Table) :
    addDefaults t = defaultsList.foldl (fun u p => addDefault u (nrowsOf t) p.1 p.2) t := by
  simp only [addDefaults, defaultsList, REQUIRED_COLUMNS, OPTIONAL_COLUMNS,
    List.cons_append, List.nil_append, List.foldl_cons, List.foldl_nil]

/-! ## Normalizer: the rename stage -/

theorem colsLower_some (t : Table) (k s : String) (h : colsLower t k = some s) :
    pyLower s = k := by
  unfold colsLower at h
  have h2 := List.find?_some (p := fun c => pyLower c == k) h
  simp only [beq_iff_eq] at h2
  exact h2

theorem colsLower_self (t : Table) (h : NodupLower t) {p : String × List Cell}
    (hp : p ∈ t) : colsLower t (pyLower p.1) = some p.1 := by
  have hnd : (((t.map Prod.fst).reverse).map pyLower).Nodup := by
    rw [List.map_reverse, List.nodup_reverse, List.map_map]
    exact h
  exact find?_eq_of_nodup_map pyLower ((t.map Prod.fst).reverse) p.1 hnd
    (List.mem_reverse.mpr (List.mem_map_of_mem Prod.fst hp))

theorem renameMapOf_mem (t : Table) {e : String × String} (he : e ∈ renameMapOf t) :
    pyLower e.1 ∈ recognizedCols ∧ e.2 = renameTarget (pyLower e.1) := by
  rcases List.mem_filterMap.mp he with ⟨k, hk, hke⟩
  cases hcl : colsLower t k with
  | none => rw [hcl] at hke; cases hke
  | some s =>
    rw [hcl] at hke
    cases hke
    have := colsLower_some t k s hcl
    exact ⟨this ▸ hk, by rw [this]⟩

theorem find?_renameMapOf_none (t : Table) (s : String)
    (hs : pyLower s ∉ recognizedCols) :
    (renameMapOf t).find? (fun q => q.1 == s) = none := by
  rw [List.find?_eq_none]
  intro e he hbe
  have h1 := (renameMapOf_mem t he).1
  rw [beq_iff_eq.mp hbe] at h1
  exact hs h1

theorem find?_filterMap_cols (t : Table) (h : NodupLower t) {p : String × List Cell}
    (hp : p ∈ t) :
    ∀ ks : List String, pyLower p.1 ∈ ks →
      (ks.filterMap fun k => (colsLower t k).map fun src => (src, renameTarget k)).find?
          (fun q => q.1 == p.1) = some (p.1, renameTarget (pyLower p.1)) := by
  intro ks
  induction ks with
  | nil => intro h0; exact absurd h0 (List.not_mem_nil _)
  | cons k ks ih =>
    intro hk
    rw [List.filterMap_cons]
    by_cases hkk : k = pyLower p.1
    · subst hkk
      rw [colsLower_self t h hp]
      simp only [Option.map_some']
      exact List.find?_cons_of_pos _ (by simp)
    · have hk' : pyLower p.1 ∈ ks := by
        rcases List.mem_cons.mp hk with h0 | h0
        · exact absurd h0.symm hkk
        · exact h0
      cases hcl : colsLower t k with
      | none => exact ih hk'
      | some s =>
        have hps : ¬((fun q : String × String => q.1 == p.1) (s, renameTarget k)) = true := by
          simp only [beq_iff_eq]
          intro e
          exact hkk ((e ▸ colsLower_some t k s hcl).symm)
        simp only [Option.map_some']
        rw [List.find?_cons_of_neg (p := fun q : String × String => q.1 == p.1) _ hps]
        exact ih hk'

theorem renameCols_eq_map (t : Table) (h : NodupLower t) :
    renameCols t = t.map fun p => (canonName p.1, p.2) := by
  unfold renameCols
  apply List.map_congr_left
  intro p hp
  unfold canonName
  by_cases hrec : pyLower p.1 ∈ recognizedCols
  · rw [if_pos hrec]
    have : (renameMapOf t).find? (fun q => q.1 == p.1) =
        some (p.1, renameTarget (pyLower p.1)) :=
      find?_filterMap_cols t h hp recognizedCols hrec
    rw [this]
    rfl
  · rw [if_neg hrec, find?_renameMapOf_none t p.1 hrec]
    rfl

theorem canonName_eq_iff {c : String} (hc : c ∈ APP_COLUMNS)
    (hne : c ≠ "LastCallDateTime") (s : String) :
    canonName s = c ↔ pyLower s = pyLower c := by
  have F1 : ∀ k ∈ recognizedCols, pyLower (renameTarget k) = k := by decide
  have F2 : ∀ c' ∈ APP_COLUMNS, c' ≠ "LastCallDateTime" →
      renameTarget (pyLower c') = c' := by decide
  have F4 : ∀ c' ∈ APP_COLUMNS, pyLower c' ∈ recognizedCols := by decide
  constructor
  · intro hcan
    unfold canonName at hcan
    by_cases hrec : pyLower s ∈ recognizedCols
    · rw [if_pos hrec] at hcan
      have := F1 _ hrec
      rw [hcan] at this
      exact this.symm
    · rw [if_neg hrec] at hcan
      rw [hcan]
  · intro hl
    unfold canonName
    have hrec : pyLower s ∈ recognizedCols := hl ▸ F4 c hc
    rw [if_pos hrec, hl, F2 c hc hne]

theorem canonName_ne_lastcall (s : String) : canonName s ≠ "LastCallDateTime" := by
  have F3 : ∀ k ∈ recognizedCols, renameTarget k ≠ "LastCallDateTime" := by decide
  unfold canonName
  by_cases hrec : pyLower s ∈ recognizedCols
  · rw [if_pos hrec]; exact F3 _ hrec
  · rw [if_neg hrec]
    intro e
    rw [e] at hrec
    exact hrec (by decide)

theorem colVals_renameCols_eq (t : Table) (h : NodupLower t) {c : String}
    (hc : c ∈ APP_COLUMNS) (hne : c ≠ "LastCallDateTime") :
    colVals (renameCols t) c =
      (t.find? fun p => pyLower p.1 == pyLower c).map Prod.snd := by
  rw [renameCols_eq_map t h]
  unfold colVals
  rw [List.find?_map]
  have hpred : ((fun q : String × List Cell => q.1 == c) ∘
      fun p : String × List Cell => (canonName p.1, p.2)) =
      fun p : String × List Cell => pyLower p.1 == pyLower c := by
    funext p
    show (canonName p.1 == c) = (pyLower p.1 == pyLower c)
    rw [Bool.eq_iff_iff]
    simp only [beq_iff_eq]
    exact canonName_eq_iff hc hne p.1
  rw [hpred, Option.map_map]
  rfl

theorem colVals_renameCols_lastcall (t : Table) (h : NodupLower t) :
    colVals (renameCols t) "LastCallDateTime" = none := by
  rw [renameCols_eq_map t h]
  unfold colVals
  rw [List.find?_map]
  have : (t.find? ((fun q : String × List Cell => q.1 == "LastCallDateTime") ∘
      fun p : String × List Cell => (canonName p.1, p.2))) = none := by
    rw [List.find?_eq_none]
    intro p _ hb
    exact canonName_ne_lastcall p.1 (beq_iff_eq.mp hb)
  rw [this]
  rfl

theorem nrowsOf_renameCols (t : Table) : nrowsOf (renameCols t) = nrowsOf t := by
  cases t <;> rfl

/-! ## Normalizer: the coercion stages and the characterization -/

theorem colVals_mapCol (f : List Cell → List Cell) (c' : String) (t : Table) (c : String) :
    colVals (t.map fun p => if p.1 == c' then (p.1, f p.2) else p) c =
      (colVals t c).map fun vs => if c == c' then f vs else vs := by
  induction t with
  | nil => rfl
  | cons p t ih =>
    rw [List.map_cons]
    unfold colVals at ih ⊢
    by_cases hc' : (p.1 == c') = true
    · rw [if_pos hc']
      by_cases hp : (p.1 == c) = true
      · have hpe : p.1 = c := beq_iff_eq.mp hp
        have hce : p.1 = c' := beq_iff_eq.mp hc'
        have hcc : (c == c') = true := beq_iff_eq.mpr (hpe ▸ hce)
        rw [List.find?_cons_of_pos (p := fun q : String × List Cell => q.1 == c)
            (a := (p.1, f p.2)) _ hp,
          List.find?_cons_of_pos (p := fun q : String × List Cell => q.1 == c)
            (a := p) _ hp]
        simp [hcc]
      · rw [List.find?_cons_of_neg (p := fun q : String × List Cell => q.1 == c)
            (a := (p.1, f p.2)) _ (by simpa using hp),
          List.find?_cons_of_neg (p := fun q : String × List Cell => q.1 == c)
            (a := p) _ (by simpa using hp)]
        exact ih
    · rw [if_neg hc']
      by_cases hp : (p.1 == c) = true
      · have hpe : p.1 = c := beq_iff_eq.mp hp
        have hce : p.1 ≠ c' := fun e => hc' (beq_iff_eq.mpr e)
        have hcc : (c == c') = false := beq_eq_false_iff_ne.mpr (hpe ▸ hce)
        rw [List.find?_cons_of_pos (p := fun q : String × List Cell => q.1 == c)
            (a := p) _ hp,
          List.find?_cons_of_pos (p := fun q : String × List Cell => q.1 == c)
            (a := p) _ hp]
        simp [hcc]
      · rw [List.find?_cons_of_neg (p := fun q : String × List Cell => q.1 == c)
            (a := p) _ (by simpa using hp),
          List.find?_cons_of_neg (p := fun q : String × List Cell => q.1 == c)
            (a := p) _ (by simpa using hp)]
        exact ih

theorem colVals_coerceDtCol (t : Table) (c' c : String) :
    colVals (coerceDtCol t c') c =
      (colVals t c).map fun vs => if c == c' then vs.map toDatetimeCell else vs :=
  colVals_mapCol _ c' t c

theorem colVals_coerceAttempts (t : Table) (c : String) :
    colVals (coerceAttempts t) c =
      (colVals t c).map fun vs => if c == "Attempts" then coerceAttemptsVals vs else vs :=
  colVals_mapCol _ _ t c

theorem colVals_coerced (t : Table) (h : NodupLower t) {c : String} (hc : c ∈ APP_COLUMNS) :
    colVals (coerceAttempts (coerceDts (addDefaults (renameCols t)))) c =
      some (stdColVals t c) := by
  have hadd : colVals (addDefaults (renameCols t)) c =
      some ((colVals (renameCols t) c).getD
        (List.replicate (nrowsOf t) (defaultCell c))) := by
    have hmem : (c, defaultCell c) ∈ defaultsList := by
      have key : ∀ c' ∈ APP_COLUMNS, (c', defaultCell c') ∈ defaultsList := by decide
      exact key c hc
    rw [addDefaults_eq_foldl,
      colVals_foldl_addDefault_mem _ _ _ defaultsList _ (by decide) hmem,
      nrowsOf_renameCols]
  unfold coerceDts
  rw [colVals_coerceAttempts, colVals_coerceDtCol, colVals_coerceDtCol,
    colVals_coerceDtCol, hadd]
  simp only [Option.map_some']
  by_cases h1 : c = "MeetingDateTime"
  · subst h1
    rw [colVals_renameCols_eq t h hc (by decide)]
    simp [stdColVals, srcVals]
  · by_cases h2 : c = "CallbackDateTime"
    · subst h2
      rw [colVals_renameCols_eq t h hc (by decide)]
      simp [stdColVals, srcVals]
    · by_cases h3 : c = "LastCallDateTime"
      · subst h3
        rw [colVals_renameCols_lastcall t h]
        simp [stdColVals, srcVals]
      · by_cases h4 : c = "Attempts"
        · subst h4
          rw [colVals_renameCols_eq t h hc (by decide)]
          simp [stdColVals, srcVals]
        · rw [colVals_renameCols_eq t h hc h3]
          simp [stdColVals, srcVals, h1, h2, h3, h4]

theorem filterMap_colVals_eq_map {u : Table} {f : String → List Cell} :
    ∀ l : List String, (∀ c ∈ l, colVals u c = some (f c)) →
      (l.filterMap fun c => (colVals u c).map fun vs => (c, vs)) =
        l.map fun c => (c, f c) := by
  intro l
  induction l with
  | nil => intro _; rfl
  | cons c l ih =>
    intro h
    rw [List.filterMap_cons, h c (List.mem_cons_self c l)]
    simp only [Option.map_some']
    rw [List.map_cons, ih fun c' hc' => h c' (List.mem_cons_of_mem _ hc')]

/-- The normalizer characterized column by column: the output is exactly the
canonical columns in order, each fed from its (case-insensitively) matching
input column, defaulted when absent, and coerced per kind. -/
theorem standardize_eq_canon (t : Table) (h : NodupLower t) :
    standardizeColumns t = APP_COLUMNS.map fun c => (c, stdColVals t c) := by
  unfold standardizeColumns reorderCols
  exact filterMap_colVals_eq_map APP_COLUMNS fun c hc => colVals_coerced t h hc

theorem colVals_canonTable (g : String → List Cell) {c : String} (hc : c ∈ APP_COLUMNS) :
    colVals (APP_COLUMNS.map fun c' => (c', g c')) c = some (g c) := by
  unfold colVals
  rw [List.find?_map]
  have key : ∀ c0 ∈ APP_COLUMNS, APP_COLUMNS.find? (fun c' => c' == c0) = some c0 := by
    decide
  have hf : APP_COLUMNS.find?
      ((fun q : String × List Cell => q.1 == c) ∘ fun c' => (c', g c')) = some c :=
    key c hc
  rw [hf]
  rfl

/-! ## Normalizer: idempotence -/

theorem toDatetimeCell_idem (x : Cell) :
    toDatetimeCell (toDatetimeCell x) = toDatetimeCell x := by
  cases x with
  | na => rfl
  | int i => rfl
  | dt d => rfl
  | str s =>
    cases h : parseDTString s with
    | some d => simp [toDatetimeCell, h]
    | none => simp [toDatetimeCell, h]

theorem f64Overflow_eq : f64Overflow = 2 ^ 1024 - 2 ^ 970 := by
  unfold f64Overflow
  norm_num

theorem int64Bound_eq : int64Bound = 2 ^ 63 := by
  unfold int64Bound
  norm_num

theorem castInt64_idem (v : Int) : castInt64 (castInt64 v) = castInt64 v := by
  unfold castInt64
  by_cases h : -int64Bound ≤ v ∧ v < int64Bound
  · rw [if_pos h, if_pos h]
  · rw [if_neg h, if_pos (by decide)]

theorem attemptsFix_range (x : Cell) :
    ∃ i : Int, attemptsFix x = Cell.int i ∧ castInt64 i = i := by
  unfold attemptsFix
  cases toNumericExt x with
  | nan => exact ⟨0, rfl, by decide⟩
  | fin v => exact ⟨castInt64 v, rfl, castInt64_idem v⟩
  | inf => exact ⟨0, rfl, by decide⟩
  | ninf => exact ⟨0, rfl, by decide⟩

theorem attemptsFix_idem (x : Cell) : attemptsFix (attemptsFix x) = attemptsFix x := by
  obtain ⟨i, hi, hr⟩ := attemptsFix_range x
  rw [hi]
  show Cell.int (castInt64 i) = Cell.int i
  rw [hr]

theorem hasInfCell_map_attemptsFix (vs : List Cell) :
    hasInfCell (vs.map attemptsFix) = false := by
  induction vs with
  | nil => rfl
  | cons x vs ih =>
    obtain ⟨i, hi, _⟩ := attemptsFix_range x
    unfold hasInfCell at ih ⊢
    rw [List.map_cons, List.any_cons, ih, hi]
    rfl

theorem coerceAttemptsVals_idem (vs : List Cell) :
    coerceAttemptsVals (coerceAttemptsVals vs) = coerceAttemptsVals vs := by
  by_cases h : hasInfCell vs = true
  · have h1 : coerceAttemptsVals vs = vs := by
      unfold coerceAttemptsVals
      rw [if_pos h]
    rw [h1, h1]
  · have h1 : coerceAttemptsVals vs = vs.map attemptsFix := by
      unfold coerceAttemptsVals
      rw [if_neg h]
    rw [h1]
    have h2 : coerceAttemptsVals (vs.map attemptsFix) =
        (vs.map attemptsFix).map attemptsFix := by
      unfold coerceAttemptsVals
      rw [if_neg (by simp [hasInfCell_map_attemptsFix])]
    rw [h2, List.map_map]
    exact List.map_congr_left fun x _ => attemptsFix_idem x

theorem length_coerceAttemptsVals (vs : List Cell) :
    (coerceAttemptsVals vs).length = vs.length := by
  unfold coerceAttemptsVals
  split
  · rfl
  · rw [List.length_map]

theorem map_idem_of {f : Cell → Cell} (hf : ∀ x, f (f x) = f x) (l : List Cell) :
    (l.map f).map f = l.map f := by
  rw [List.map_map]
  exact List.map_congr_left fun x _ => hf x

theorem stdColVals_dtForm {u : Table} {c : String}
    (hdt : c = "MeetingDateTime" ∨ c = "CallbackDateTime" ∨ c = "LastCallDateTime") :
    stdColVals u c =
      ((srcVals u c).getD (List.replicate (nrowsOf u) (defaultCell c))).map
        toDatetimeCell := by
  simp only [stdColVals, if_pos hdt]

theorem stdColVals_attForm {u : Table} :
    stdColVals u "Attempts" =
      coerceAttemptsVals ((srcVals u "Attempts").getD
        (List.replicate (nrowsOf u) (defaultCell "Attempts"))) := by
  simp only [stdColVals]
  rw [if_neg (by decide)]
  simp

theorem stdColVals_otherForm {u : Table} {c : String}
    (hdt : ¬(c = "MeetingDateTime" ∨ c = "CallbackDateTime" ∨ c = "LastCallDateTime"))
    (hatt : c ≠ "Attempts") :
    stdColVals u c = (srcVals u c).getD (List.replicate (nrowsOf u) (defaultCell c)) := by
  simp only [stdColVals, if_neg hdt, if_neg hatt]

theorem length_stdColVals (t : Table) (h2 : Rectangular t) (c : String) :
    (stdColVals t c).length = nrowsOf t := by
  have hraw : ((srcVals t c).getD (List.replicate (nrowsOf t) (defaultCell c))).length
      = nrowsOf t := by
    cases hs : srcVals t c with
    | none => simp
    | some vs =>
      unfold srcVals at hs
      by_cases hl : c = "LastCallDateTime"
      · rw [if_pos hl] at hs; cases hs
      · rw [if_neg hl] at hs
        cases hf : t.find? (fun p => pyLower p.1 == pyLower c) with
        | none => rw [hf] at hs; cases hs
        | some p =>
          rw [hf, Option.map_some'] at hs
          cases hs
          simp only [Option.getD_some]
          exact h2 p (List.mem_of_find?_eq_some hf)
  by_cases hdt : c = "MeetingDateTime" ∨ c = "CallbackDateTime" ∨ c = "LastCallDateTime"
  · rw [stdColVals_dtForm hdt, List.length_map, hraw]
  · by_cases hatt : c = "Attempts"
    · subst hatt
      rw [stdColVals_attForm, length_coerceAttemptsVals, hraw]
    · rw [stdColVals_otherForm hdt hatt, hraw]

theorem srcVals_canonTable (g : String → List Cell) {c : String} (hc : c ∈ APP_COLUMNS)
    (hne : c ≠ "LastCallDateTime") :
    srcVals (APP_COLUMNS.map fun c' => (c', g c')) c = some (g c) := by
  unfold srcVals
  rw [if_neg hne, List.find?_map]
  have key : ∀ c0 ∈ APP_COLUMNS,
      APP_COLUMNS.find? (fun c' => pyLower c' == pyLower c0) = some c0 := by decide
  have hf : APP_COLUMNS.find?
      ((fun p : String × List Cell => pyLower p.1 == pyLower c) ∘ fun c' => (c', g c'))
      = some c := key c hc
  rw [hf]
  rfl

theorem nodupLower_canonTable (g : String → List Cell) :
    NodupLower (APP_COLUMNS.map fun c => (c, g c)) := by
  unfold NodupLower
  rw [List.map_map]
  have h : (APP_COLUMNS.map fun c => pyLower c).Nodup := by decide
  exact h

theorem stdColVals_pass2 (t : Table) (h2 : Rectangular t) {c : String}
    (hc : c ∈ APP_COLUMNS) :
    stdColVals (APP_COLUMNS.map fun c' => (c', stdColVals t c')) c = stdColVals t c := by
  have hn : nrowsOf (APP_COLUMNS.map fun c' => (c', stdColVals t c')) = nrowsOf t := by
    show (stdColVals t "Name").length = nrowsOf t
    exact length_stdColVals t h2 "Name"
  by_cases hl : c = "LastCallDateTime"
  · subst hl
    rw [stdColVals_dtForm (Or.inr (Or.inr rfl)), stdColVals_dtForm (Or.inr (Or.inr rfl))]
    have hLs : srcVals (APP_COLUMNS.map fun c' => (c', stdColVals t c'))
        "LastCallDateTime" = none := by
      unfold srcVals; rw [if_pos rfl]
    have hRs : srcVals t "LastCallDateTime" = none := by
      unfold srcVals; rw [if_pos rfl]
    rw [hLs, hRs, hn]
  · have hsrc := srcVals_canonTable (fun c' => stdColVals t c') hc hl
    by_cases hdt : c = "MeetingDateTime" ∨ c = "CallbackDateTime" ∨ c = "LastCallDateTime"
    · rw [stdColVals_dtForm hdt, hsrc, Option.getD_some]
      beta_reduce
      rw [stdColVals_dtForm hdt]
      exact map_idem_of toDatetimeCell_idem _
    · by_cases hatt : c = "Attempts"
      · subst hatt
        rw [stdColVals_attForm, hsrc, Option.getD_some]
        beta_reduce
        rw [stdColVals_attForm]
        exact coerceAttemptsVals_idem _
      · rw [stdColVals_otherForm hdt hatt, hsrc, Option.getD_some]

/-! ## Claim C1 -/

/-- C1: normalizing a tabular input, exporting the canonical table back to
tabular form, and normalizing again returns exactly the table the first
normalization produced — `normalize (export (normalize T)) = normalize T` —
and the normalized column order is the fixed canonical order, so column
order, types, and defaults (every timestamp column, `LastCallDateTime`
included, and the integer `Attempts` column) are stable across the cycle. -/
theorem C1_normalize_export_roundtrip (t : Table) (h1 : NodupLower t)
    (h2 : Rectangular t) :
    standardizeColumns (exportTable (standardizeColumns t)) = standardizeColumns t ∧
    (standardizeColumns t).map Prod.fst = APP_COLUMNS := by
  unfold exportTable
  constructor
  · rw [standardize_eq_canon t h1,
      standardize_eq_canon _ (nodupLower_canonTable fun c => stdColVals t c)]
    exact List.map_congr_left fun c hc => by rw [stdColVals_pass2 t h2 hc]
  · rw [standardize_eq_canon t h1, List.map_map]
    exact List.map_id APP_COLUMNS

/-- Witness for C1: both hypotheses hold at `c1Probe` and the round-trip
equation follows there. -/
theorem C1_witness :
    NodupLower c1Probe ∧ Rectangular c1Probe ∧
      (standardizeColumns (exportTable (standardizeColumns c1Probe)) =
          standardizeColumns c1Probe ∧
        (standardizeColumns c1Probe).map Prod.fst = APP_COLUMNS) :=
  ⟨by decide, by decide, C1_normalize_export_roundtrip c1Probe (by decide) (by decide)⟩

/-! ## Claim C5 -/

/-- C5: the claim matches the code's evident intent, but the rename is
buggy for this one column: `"lastcalldatetime".capitalize().replace(
"datetime", "DateTime")` yields `"LastcallDateTime"`, not the canonical
`"LastCallDateTime"`, so a recognized LastCall input column is renamed to a
name the final column selection silently drops, and the canonical column is
synthesized all-absent instead of receiving the (parseable) input values. -/
theorem C5_lastcall_values_dropped :
    renameTarget "lastcalldatetime" = "LastcallDateTime" ∧
    toDatetimeCell (Cell.str "2025-01-02 03:04") =
      Cell.dt ⟨secOfCivil 2025 1 2 3 4 0, none⟩ ∧
    colVals (standardizeColumns c5Probe) "LastCallDateTime" = some [Cell.na] :=
  ⟨by decide, by decide, by decide⟩

/-! ## Claim C4 -/

/-- C4 counterexample: after normalization the Attempts cell of this input
is the negative integer −3, refuting `attempts(R) ≥ 0` for every tabular
input. -/
theorem C4_counterexample :
    colVals (standardizeColumns c4Probe) "Attempts" = some [Cell.int (-3)] ∧
    ¬(0 : Int) ≤ -3 :=
  ⟨by decide, by decide⟩

/-- C4 (amended): the Attempts column is the (case-insensitively) matched
source column — or the all-zero default — passed through the guarded
coercion of lines 64-67.  When no source cell parses to a float infinity:
every resulting cell is an integer, a non-numeric or missing cell is
coerced to 0, and an in-int64-range numeric value keeps its value, sign
included — so `attempts(R) ≥ 0` fails for a negative numeric source.  When
some cell parses to ±inf (`"inf"`, `"-inf"`, an overflowing `"1e999"`),
`astype(int)` raises, the `except: pass` leaves the whole column raw, and
normalization then does not even make the Attempts cells integers. -/
theorem C4_attempts_coercion (t : Table) (h1 : NodupLower t) :
    colVals (standardizeColumns t) "Attempts" =
      some (coerceAttemptsVals ((srcVals t "Attempts").getD
        (List.replicate (nrowsOf t) (defaultCell "Attempts")))) ∧
    (∀ vs : List Cell, hasInfCell vs = false →
      coerceAttemptsVals vs = vs.map attemptsFix) ∧
    (∀ x : Cell, toNumericExt x = PdNum.nan → attemptsFix x = Cell.int 0) ∧
    (∀ x : Cell, ∃ i : Int, attemptsFix x = Cell.int i) ∧
    (∀ x : Cell, ∀ v : Int, toNumericExt x = PdNum.fin v →
      -int64Bound ≤ v → v < int64Bound → attemptsFix x = Cell.int v) ∧
    (∀ vs : List Cell, hasInfCell vs = true → coerceAttemptsVals vs = vs) := by
  refine ⟨?_, ?_, ?_, ?_, ?_, ?_⟩
  · rw [standardize_eq_canon t h1, colVals_canonTable _ (by decide), stdColVals_attForm]
  · intro vs hvs
    unfold coerceAttemptsVals
    rw [if_neg (by simp [hvs])]
  · intro x hx
    unfold attemptsFix
    rw [hx]
  · intro x
    obtain ⟨i, hi, _⟩ := attemptsFix_range x
    exact ⟨i, hi⟩
  · intro x v hx hlo hhi
    unfold attemptsFix
    rw [hx]
    dsimp only
    unfold castInt64
    rw [if_pos ⟨hlo, hhi⟩]
  · intro vs hvs
    unfold coerceAttemptsVals
    rw [if_pos hvs]

/-- Witness for C4 (amended): the coerced path at `c4WitProbe` (hypotheses
hold, the column is coerced cell-wise, `"x"` becomes 0, `"-3"` keeps its
sign) and the raised path at `c4InfCol` (an infinity is present and the
column is left raw). -/
theorem C4_witness :
    NodupLower c4WitProbe ∧ hasInfCell c4InfCol = true ∧
      (colVals (standardizeColumns c4WitProbe) "Attempts" =
        some (coerceAttemptsVals ((srcVals c4WitProbe "Attempts").getD
          (List.replicate (nrowsOf c4WitProbe) (defaultCell "Attempts")))) ∧
       attemptsFix (Cell.str "x") = Cell.int 0 ∧
       attemptsFix (Cell.str "-3") = Cell.int (-3) ∧
       coerceAttemptsVals c4InfCol = c4InfCol) :=
  by
  refine ⟨by decide, by decide, ?_, ?_, ?_, ?_⟩
  · exact (C4_attempts_coercion c4WitProbe (by decide)).1
  · exact (C4_attempts_coercion c4WitProbe (by decide)).2.2.1 _ (by decide)
  · exact (C4_attempts_coercion c4WitProbe (by decide)).2.2.2.2.1 _ (-3) (by decide)
      (by decide) (by decide)
  · exact (C4_attempts_coercion c4WitProbe (by decide)).2.2.2.2.2 _ (by decide)


/-! ## Claim C6 -/

/-- C6: template rendering is total; on a substitution failure the original
template text is returned unchanged for that field; subject and body are
substituted independently (each result is unchanged under any change of the
other template); `"Hi \x7bunknown_field\x7d"` renders to itself for every record;
and `"Hi \x7bfirst_name\x7d"` renders to `"Hi Jane"` when the record's name is
`"Jane Doe"`. -/
theorem C6_render_fallback_and_examples (row : Row) (s s' b b' : String) :
    (pyFormat s (renderMapping row) = none → (renderTemplate row s b).1 = s) ∧
    (∀ r, pyFormat s (renderMapping row) = some r → (renderTemplate row s b).1 = r) ∧
    (renderTemplate row s b).2 = (renderTemplate row s' b).2 ∧
    (renderTemplate row s b).1 = (renderTemplate row s b').1 ∧
    (renderTemplate row "Hi {unknown_field}" b).1 = "Hi {unknown_field}" ∧
    (row.name = "Jane Doe" → (renderTemplate row s "Hi {first_name}").2 = "Hi Jane") := by
  refine ⟨?_, ?_, rfl, rfl, ?_, ?_⟩
  · intro h
    unfold renderTemplate
    rw [h]
    rfl
  · intro r h
    unfold renderTemplate
    rw [h]
    rfl
  · unfold renderTemplate
    have h : pyFormat "Hi {unknown_field}" (renderMapping row) = none := rfl
    rw [h]
    rfl
  · intro hn
    unfold renderTemplate renderMapping
    rw [hn]
    rfl

/-- Witness for C6 at a concrete record and the spec's two templates. -/
theorem C6_witness :
    (renderTemplate c6Row "Hi {unknown_field}" "Hi {first_name}").1 =
        "Hi {unknown_field}" ∧
    (renderTemplate c6Row "Hi {unknown_field}" "Hi {first_name}").2 = "Hi Jane" :=
  ⟨(C6_render_fallback_and_examples c6Row "Hi {unknown_field}" "X" "Hi {first_name}"
      "Y").2.2.2.2.1,
   (C6_render_fallback_and_examples c6Row "Hi {unknown_field}" "X" "Hi {first_name}"
      "Y").2.2.2.2.2 rfl⟩

/-! ## Claim C2 -/

theorem icsResolveOfs_of_resolvedTz {zdb : ZoneDb} {tzname : String} {m : PyDT} {z : Tz}
    (hz : resolvedTz zdb tzname m = some z) :
    icsResolveOfs zdb tzname m = Except.ok z.offsetAt := by
  obtain ⟨sec, off⟩ := m
  cases off with
  | some o =>
    have hz' : some (⟨fun _ => o⟩ : Tz) = some z := hz
    cases hz'
    rfl
  | none =>
    have hz' : zdb tzname = some z := hz
    show (match zdb tzname with
      | some z' => Except.ok z'.offsetAt
      | none => Except.error (IcsErr.badTz tzname)) = Except.ok z.offsetAt
    rw [hz']

theorem icsEventBytes_some (zdb : ZoneDb) (row : Row) (tzname : String)
    (durationMin : Int) (orgName orgEmail location descTemplate : String)
    (nowUtcSec : Int) (uuid : String) {m : PyDT} (hm : row.meeting = some m) :
    icsEventBytes zdb row tzname durationMin orgName orgEmail location descTemplate
        nowUtcSec uuid =
      (icsVeventLines zdb row m tzname durationMin orgName orgEmail location
          descTemplate nowUtcSec uuid).map
        (fun core =>
          joinCRLF (icsCalHeader ++ ["BEGIN:VEVENT"] ++ core ++
            ["END:VEVENT", "END:VCALENDAR"]) ++ "\r\n") := by
  unfold icsEventBytes
  rw [hm]

theorem icsEventLinesE_some (zdb : ZoneDb) (row : Row) (tzname : String)
    (durationMin : Int) (orgName orgEmail location descTemplate : String)
    (nowUtcSec : Int) (uuid : String) {m : PyDT} (hm : row.meeting = some m) :
    icsEventLinesE zdb row tzname durationMin orgName orgEmail location descTemplate
        nowUtcSec uuid =
      (icsVeventLines zdb row m tzname durationMin orgName orgEmail location
          descTemplate nowUtcSec uuid).map
        (fun core => icsCalHeader ++ ["BEGIN:VEVENT"] ++ core ++
          ["END:VEVENT", "END:VCALENDAR"]) := by
  unfold icsEventLinesE
  rw [hm]

/-- C2: the encoder returns the absent result (the empty document) exactly
when the record has no meeting timestamp, raising no error in that case;
and whenever a document is produced, its DTSTART/DTEND lines carry the UTC
instants the spec prescribes — the wall-clock start interpreted in the
resolved zone (the named zone for a naive timestamp, the carried offset for
a zone-aware one) and the end `durationMinutes` later, each converted to
UTC at its own wall-clock time. -/
theorem C2_ics_absent_iff_and_utc (zdb : ZoneDb) (row : Row) (tzname : String)
    (durationMin : Int) (orgName orgEmail location descTemplate : String)
    (nowUtcSec : Int) (uuid : String) :
    (icsEventBytes zdb row tzname durationMin orgName orgEmail location descTemplate
        nowUtcSec uuid = Except.ok "" ↔ row.meeting = none) ∧
    (∀ m z ls, row.meeting = some m → resolvedTz zdb tzname m = some z →
      icsEventLinesE zdb row tzname durationMin orgName orgEmail location descTemplate
          nowUtcSec uuid = Except.ok ls →
      ls.get? 8 = some ("DTSTART:" ++ strftimeZ (specStartUtc z m)) ∧
      ls.get? 9 = some ("DTEND:" ++ strftimeZ (specEndUtc z m durationMin))) := by
  constructor
  · constructor
    · intro hok
      cases hm : row.meeting with
      | none => rfl
      | some m =>
        rw [icsEventBytes_some zdb row tzname durationMin orgName orgEmail location
          descTemplate nowUtcSec uuid hm] at hok
        cases hcore : icsVeventLines zdb row m tzname durationMin orgName orgEmail
            location descTemplate nowUtcSec uuid with
        | error e => rw [hcore] at hok; exact Except.noConfusion hok
        | ok core =>
          rw [hcore] at hok
          simp only [Except.map] at hok
          have hdata : (joinCRLF (icsCalHeader ++ ["BEGIN:VEVENT"] ++ core ++
              ["END:VEVENT", "END:VCALENDAR"]) ++ "\r\n").data = "".data :=
            congrArg String.data (Except.ok.inj hok)
          rw [String.data_append] at hdata
          simp at hdata
    · intro hm
      unfold icsEventBytes
      rw [hm]
  · intro m z ls hm hz hls
    rw [icsEventLinesE_some zdb row tzname durationMin orgName orgEmail location
      descTemplate nowUtcSec uuid hm] at hls
    cases hcore : icsVeventLines zdb row m tzname durationMin orgName orgEmail location
        descTemplate nowUtcSec uuid with
    | error e => rw [hcore] at hls; exact Except.noConfusion hls
    | ok core =>
      rw [hcore] at hls
      simp only [Except.map] at hls
      cases hls
      unfold icsVeventLines at hcore
      split at hcore
      · exact Except.noConfusion hcore
      · rename_i ofs heq
        have hofs : ofs = z.offsetAt := by
          have h0 := icsResolveOfs_of_resolvedTz hz
          rw [heq] at h0
          exact Except.ok.inj h0
        subst hofs
        dsimp only at hcore
        split at hcore
        · exact Except.noConfusion hcore
        · rename_i description heq2
          cases hcore
          by_cases hemail : pyStrip row.email ≠ ""
          · rw [if_pos hemail]
            exact ⟨rfl, rfl⟩
          · rw [if_neg hemail]
            exact ⟨rfl, rfl⟩

/-- Witness for C2: naive 2025-03-04 14:30 in America/New_York with
duration 30 produces DTSTART 20250304T193000Z and DTEND 20250304T200000Z
(EST offset −5), and those are exactly the lines the theorem locates. -/
theorem C2_witness :
    icsEventLinesE zdb0 anaRow "America/New_York" 30 "O" "oe" "L" "d" 0 "u" =
        Except.ok anaLines ∧
    anaLines.get? 8 = some ("DTSTART:" ++ strftimeZ (specStartUtc newYorkTz anaDT)) ∧
    anaLines.get? 9 = some ("DTEND:" ++ strftimeZ (specEndUtc newYorkTz anaDT 30)) ∧
    "DTSTART:" ++ strftimeZ (specStartUtc newYorkTz anaDT) =
        "DTSTART:20250304T193000Z" ∧
    "DTEND:" ++ strftimeZ (specEndUtc newYorkTz anaDT 30) = "DTEND:20250304T200000Z" := by
  have hls : icsEventLinesE zdb0 anaRow "America/New_York" 30 "O" "oe" "L" "d" 0 "u" =
      Except.ok anaLines := by decide
  have h := (C2_ics_absent_iff_and_utc zdb0 anaRow "America/New_York" 30 "O" "oe" "L"
    "d" 0 "u").2 anaDT newYorkTz anaLines rfl rfl hls
  exact ⟨hls, h.1, h.2, by decide, by decide⟩

/-! ## Claim C7 -/

/-- C7 counterexample: a meeting-bearing record with an unknown placeholder
in the description template makes the encoder raise (the `KeyError` of line
287, surfaced as `formatError`) instead of falling back to the raw template
text. -/
theorem C7_counterexample :
    icsEventBytes zdb0 anaRow "America/New_York" 30 "O" "oe" "L" "{unknown}" 0 "u" =
      Except.error IcsErr.formatError := by decide

/-- C7 (amended): the description substitution of `_ics_event_bytes` is not
guarded: for a record with a meeting timestamp whose timezone resolves, any
substitution failure over the description template is raised to the caller
as an error — there is no fallback to the raw template text (unlike
`_render_template`, which does fall back). -/
theorem C7_desc_format_error_surfaces (zdb : ZoneDb) (row : Row) (tzname : String)
    (durationMin : Int) (orgName orgEmail location descTemplate : String)
    (nowUtcSec : Int) (uuid : String) (m : PyDT) (f : Int → Int)
    (hm : row.meeting = some m)
    (hofs : icsResolveOfs zdb tzname m = Except.ok f)
    (hfmt : pyFormat descTemplate
      [("name", pyStrip row.name), ("company", pyStrip row.company),
       ("notes", pyStrip row.notes)] = none) :
    icsEventBytes zdb row tzname durationMin orgName orgEmail location descTemplate
      nowUtcSec uuid = Except.error IcsErr.formatError := by
  rw [icsEventBytes_some zdb row tzname durationMin orgName orgEmail location
    descTemplate nowUtcSec uuid hm]
  have hV : icsVeventLines zdb row m tzname durationMin orgName orgEmail location
      descTemplate nowUtcSec uuid = Except.error IcsErr.formatError := by
    unfold icsVeventLines
    rw [hofs]
    simp only [hfmt]
  rw [hV]
  rfl

/-- Witness for C7 (amended) at Ana's record and the template `"{unknown}"`. -/
theorem C7_witness :
    icsEventBytes zdb0 anaRow "America/New_York" 30 "O" "oe" "L" "{unknown}" 0 "u" =
      Except.error IcsErr.formatError :=
  C7_desc_format_error_surfaces zdb0 anaRow "America/New_York" 30 "O" "oe" "L"
    "{unknown}" 0 "u" anaDT newYorkTz.offsetAt rfl rfl (by decide)

/-! ## Claim C9 -/

theorem except_map_error_iff {ε α β : Type} (f : α → β) (x : Except ε α) (e : ε) :
    x.map f = Except.error e ↔ x = Except.error e := by
  cases x <;> simp [Except.map]

/-- C9 counterexample: with a zone-carrying meeting timestamp, an
unresolvable timezone name raises nothing — the encoder succeeds and emits
a non-empty document, because `ZoneInfo(tzname)` is only reached on the
naive branch. -/
theorem C9_counterexample :
    (icsEventBytes (fun _ => none) c9Row "Bogus/Zone" 30 "O" "oe" "L" "d" 0 "u").isOk
        = true ∧
    icsEventBytes (fun _ => none) c9Row "Bogus/Zone" 30 "O" "oe" "L" "d" 0 "u" ≠
      Except.ok "" := by
  constructor
  · decide
  · decide

/-- C9 (amended): an invalid or unresolvable timezone name is a surfaced
error exactly on the path that consults it — a record whose meeting
timestamp is naive; a record whose timestamp carries its own zone never
reaches the zone lookup, so no timezone error can be raised for it. -/
theorem C9_invalid_timezone_error (zdb : ZoneDb) (row : Row) (tzname : String)
    (durationMin : Int) (orgName orgEmail location descTemplate : String)
    (nowUtcSec : Int) (uuid : String) (m : PyDT) (hm : row.meeting = some m) :
    (m.off = none → zdb tzname = none →
      icsEventBytes zdb row tzname durationMin orgName orgEmail location descTemplate
        nowUtcSec uuid = Except.error (IcsErr.badTz tzname)) ∧
    (∀ o : Int, m.off = some o →
      icsEventBytes zdb row tzname durationMin orgName orgEmail location descTemplate
          nowUtcSec uuid ≠ Except.error (IcsErr.badTz tzname)) := by
  constructor
  · intro hoff hzdb
    rw [icsEventBytes_some zdb row tzname durationMin orgName orgEmail location
      descTemplate nowUtcSec uuid hm]
    have hofs : icsResolveOfs zdb tzname m = Except.error (IcsErr.badTz tzname) := by
      unfold icsResolveOfs
      rw [hoff, hzdb]
    have hV : icsVeventLines zdb row m tzname durationMin orgName orgEmail location
        descTemplate nowUtcSec uuid = Except.error (IcsErr.badTz tzname) := by
      unfold icsVeventLines
      rw [hofs]
    rw [hV]
    rfl
  · intro o hoff
    rw [icsEventBytes_some zdb row tzname durationMin orgName orgEmail location
      descTemplate nowUtcSec uuid hm]
    intro he
    rw [except_map_error_iff] at he
    have hofs : icsResolveOfs zdb tzname m = Except.ok fun _ => o := by
      unfold icsResolveOfs
      rw [hoff]
    unfold icsVeventLines at he
    rw [hofs] at he
    dsimp only at he
    split at he
    · exact IcsErr.noConfusion (Except.error.inj he)
    · exact Except.noConfusion he

/-- Witness for C9 (amended): a naive meeting with an unresolvable zone
name raises `badTz`. -/
theorem C9_witness :
    icsEventBytes (fun _ => none) c9NaiveRow "Bogus/Zone" 30 "O" "oe" "L" "d" 0 "u" =
      Except.error (IcsErr.badTz "Bogus/Zone") :=
  (C9_invalid_timezone_error (fun _ => none) c9NaiveRow "Bogus/Zone" 30 "O" "oe" "L"
    "d" 0 "u" ⟨0, none⟩ rfl).1 rfl rfl

/-! ## Sorting lemmas -/

theorem mem_insertBy {α : Type} (le : α → α → Bool) (a x : α) :
    ∀ l : List α, (x ∈ insertBy le a l ↔ x ∈ a :: l) := by
  intro l
  induction l with
  | nil => simp [insertBy]
  | cons b bs ih =>
    unfold insertBy
    by_cases h : le a b = true
    · rw [if_pos h]
    · rw [if_neg h]
      simp only [List.mem_cons] at ih ⊢
      rw [ih]
      tauto

theorem mem_sortBy {α : Type} (le : α → α → Bool) (x : α) :
    ∀ l : List α, (x ∈ sortBy le l ↔ x ∈ l) := by
  intro l
  induction l with
  | nil => simp [sortBy]
  | cons a as ih =>
    unfold sortBy
    rw [mem_insertBy]
    simp only [List.mem_cons]
    rw [ih]

theorem pairwise_insertBy {α : Type} {le : α → α → Bool}
    (htot : ∀ a b, le a b = true ∨ le b a = true)
    (htrans : ∀ a b c, le a b = true → le b c = true → le a c = true) :
    ∀ (l : List α) (a : α), l.Pairwise (fun x y => le x y = true) →
      (insertBy le a l).Pairwise (fun x y => le x y = true) := by
  intro l
  induction l with
  | nil =>
    intro a _
    simp [insertBy]
  | cons b bs ih =>
    intro a hp
    rw [List.pairwise_cons] at hp
    unfold insertBy
    by_cases h : le a b = true
    · rw [if_pos h, List.pairwise_cons]
      constructor
      · intro x hx
        rcases List.mem_cons.mp hx with h0 | hx'
        · rw [h0]; exact h
        · exact htrans a b x h (hp.1 x hx')
      · exact List.pairwise_cons.mpr hp
    · rw [if_neg h, List.pairwise_cons]
      constructor
      · intro x hx
        rw [mem_insertBy] at hx
        rcases List.mem_cons.mp hx with h0 | hx'
        · rcases htot a b with hh | hh
          · exact absurd hh h
          · rw [h0]; exact hh
        · exact hp.1 x hx'
      · exact ih a hp.2

theorem pairwise_sortBy {α : Type} {le : α → α → Bool}
    (htot : ∀ a b, le a b = true ∨ le b a = true)
    (htrans : ∀ a b c, le a b = true → le b c = true → le a c = true) :
    ∀ l : List α, (sortBy le l).Pairwise (fun x y => le x y = true) := by
  intro l
  induction l with
  | nil => exact List.Pairwise.nil
  | cons a as ih => exact pairwise_insertBy htot htrans _ a ih

theorem rateDescLe_total (a b : RateRow) :
    rateDescLe a b = true ∨ rateDescLe b a = true := by
  unfold rateDescLe
  simp only [decide_eq_true_eq]
  omega

theorem rateDescLe_trans (a b c : RateRow) :
    rateDescLe a b = true → rateDescLe b c = true → rateDescLe a c = true := by
  unfold rateDescLe
  simp only [decide_eq_true_eq]
  omega

/-! ## Claim C3 -/

/-- C3 (amended): every returned group has a positive attempted count; each
row's `n`/`attempted`/`yes` are the exact per-group counts over the input
records and its stored rate is `yes / attempted * 100` rounded half-even to
one decimal (kept here exactly, in tenths of a percent); the rows are
sorted descending by that stored (rounded) rate with ties broken descending
by attempted count; and the table is truncated to at most `topN` rows. -/
theorem C3_rate_table_contract (groupVal : Row → String) (rows : List Row)
    (topN : Nat) :
    (∀ x ∈ rate_table groupVal rows topN,
      0 < x.attempted ∧
      x.n = (rows.filter fun r => groupVal r == x.key).length ∧
      x.attempted = (rows.filter fun r => groupVal r == x.key && attemptedB r).length ∧
      x.yes = (rows.filter fun r => groupVal r == x.key && isYesB r).length ∧
      x.yesRate10 = rate10 x.yes x.attempted) ∧
    (rate_table groupVal rows topN).Pairwise (fun a b =>
      b.yesRate10 < a.yesRate10 ∨
        (a.yesRate10 = b.yesRate10 ∧ b.attempted ≤ a.attempted)) ∧
    (rate_table groupVal rows topN).length ≤ topN := by
  refine ⟨?_, ?_, ?_⟩
  · intro x hx
    unfold rate_table at hx
    have hx1 : x ∈ sortBy rateDescLe
        ((((sortBy strLe (rows.map groupVal).dedup).map (rateAgg groupVal rows)).filter
          fun y => 0 < y.attempted).map rateFill) :=
      (List.take_sublist _ _).mem hx
    rw [mem_sortBy] at hx1
    rcases List.mem_map.mp hx1 with ⟨y, hy, hxy⟩
    rcases List.mem_filter.mp hy with ⟨hy1, hy2⟩
    rcases List.mem_map.mp hy1 with ⟨k, _, hyk⟩
    subst hyk
    subst hxy
    refine ⟨by simpa using hy2, rfl, rfl, rfl, rfl⟩
  · have hp := pairwise_sortBy rateDescLe_total rateDescLe_trans
      ((((sortBy strLe (rows.map groupVal).dedup).map (rateAgg groupVal rows)).filter
        fun y => 0 < y.attempted).map rateFill)
    have hs := List.Pairwise.sublist (List.take_sublist topN _) hp
    unfold rate_table
    refine hs.imp ?_
    intro a b hab
    have := of_decide_eq_true hab
    exact this
  · unfold rate_table
    rw [List.length_take]
    exact Nat.min_le_left _ _

/-- C3 counterexample: the one group of this input has `attempted = 3`,
`yes = 1`, and its stored conversion rate is 33.3 (333 tenths — rounded to
one decimal before sorting), which is not the claim's exact
`convertedCount / attemptedCount * 100 = 100/3`. -/
theorem C3_counterexample :
    (rate_table (fun r => r.company) c3Rows 15).map
        (fun x => (x.key, x.attempted, x.yes, x.yesRate10)) = [("A", 3, 1, 333)] ∧
    ¬((333 : Rat) / 10 = 1 / 3 * 100) := by
  constructor
  · decide
  · norm_num

/-- Witness for C3 (amended): the computed table at a concrete input, with
the theorem instantiated at its first row. -/
theorem C3_witness :
    rate_table (fun r => r.company) c3WitRows 15 =
        [⟨"B", 1, 1, 1, 1000⟩, ⟨"A", 2, 2, 1, 500⟩] ∧
    (0 < (⟨"B", 1, 1, 1, 1000⟩ : RateRow).attempted ∧
      (⟨"B", 1, 1, 1, 1000⟩ : RateRow).yesRate10 = rate10 1 1) := by
  have h := (C3_rate_table_contract (fun r => r.company) c3WitRows 15).1
    ⟨"B", 1, 1, 1, 1000⟩ (by decide)
  exact ⟨by decide, h.1, h.2.2.2.2⟩

/-! ## Claim C10 -/

theorem filterMap_find_day_sublist (grp : List WkRow) :
    ∀ l : List String,
      ((l.filterMap fun w => grp.find? fun x => x.day == w).map fun x => x.day).Sublist
        l := by
  intro l
  induction l with
  | nil => simp
  | cons w ws ih =>
    rw [List.filterMap_cons]
    cases hf : grp.find? (fun x => x.day == w) with
    | none => exact ih.cons w
    | some x =>
      have hx : x.day = w :=
        beq_iff_eq.mp (List.find?_some (p := fun y : WkRow => y.day == w) hf)
      rw [List.map_cons, hx]
      exact ih.cons₂ w

/-- C10: the touch timestamp is the first present value among
lastCallDateTime, callbackDateTime, meetingDateTime in that priority
order; records with no touch timestamp are excluded from the weekday table
entirely (appending such a record changes nothing); the weekday table's
rows appear in the fixed Monday→Sunday order (their day names form a
sublist of the canonical order, weekdays without surviving data simply
missing); and every shown weekday has data (positive attempted count, with
the rounded rate computed from its counts). -/
theorem C10_touch_priority_and_weekday_order (rows : List Row) (r0 : Row) :
    (∀ r : Row, touch_datetime r = specTouch r) ∧
    (touch_datetime r0 = none → wk_grp (rows ++ [r0]) = wk_grp rows) ∧
    ((wk_grp rows).map fun x => x.day).Sublist weekdayNames ∧
    (∀ x ∈ wk_grp rows, 0 < x.attempted ∧ x.yesRate10 = rate10 x.yes x.attempted) := by
  refine ⟨?_, ?_, ?_, ?_⟩
  · intro r
    unfold touch_datetime specTouch
    cases r.lastCall <;> cases r.callback <;> cases r.meeting <;> rfl
  · intro h
    unfold wk_grp
    rw [List.filter_append]
    have hnil : List.filter (fun r => (touch_datetime r).isSome) [r0] = [] := by
      simp [h]
    rw [hnil, List.append_nil]
  · exact filterMap_find_day_sublist _ weekdayNames
  · intro x hx
    unfold wk_grp at hx
    rcases List.mem_filterMap.mp hx with ⟨w, _, hf⟩
    have hg := List.mem_of_find?_eq_some hf
    rcases List.mem_map.mp hg with ⟨y, hy, hxy⟩
    rcases List.mem_filter.mp hy with ⟨_, hy2⟩
    subst hxy
    exact ⟨by simpa using hy2, rfl⟩

/-- Witness for C10: appending the touch-less record changes nothing, and
the weekday table lists Monday before Friday despite Friday's record coming
first. -/
theorem C10_witness :
    touch_datetime c10NoTouch = none ∧
    wk_grp (c10Rows ++ [c10NoTouch]) = wk_grp c10Rows ∧
    ((wk_grp c10Rows).map fun x => x.day) = ["Monday", "Friday"] := by
  refine ⟨rfl, ?_, by decide⟩
  exact (C10_touch_priority_and_weekday_order c10Rows c10NoTouch).2.1 rfl

/-! ## Occurrence and split lemmas for the bulk analysis -/

theorem isPrefixOf_nil_false {sep : List Char} (h : sep ≠ []) :
    sep.isPrefixOf ([] : List Char) = false := by
  cases sep with
  | nil => exact absurd rfl h
  | cons c cs => rfl

theorem hasSub_of_isPrefixOf {sep l : List Char} (hsep : sep ≠ [])
    (h : sep.isPrefixOf l = true) : hasSub sep l = true := by
  cases l with
  | nil => rw [isPrefixOf_nil_false hsep] at h; cases h
  | cons c cs => simp [hasSub, h]

theorem hasSub_cons_false {sep : List Char} {c : Char} {l : List Char}
    (h : hasSub sep (c :: l) = false) : hasSub sep l = false := by
  unfold hasSub at h
  exact (Bool.or_eq_false_iff.mp h).2

theorem splitCore_fuel {sep : List Char} (hsep : sep ≠ []) :
    ∀ (f1 : Nat) (s : List Char) (f2 : Nat) (acc : List Char),
      s.length ≤ f1 → s.length ≤ f2 →
      splitCore sep f1 acc s = splitCore sep f2 acc s := by
  intro f1
  induction f1 with
  | zero =>
    intro s f2 acc h1 _
    have hs : s = [] := List.eq_nil_of_length_eq_zero (Nat.le_zero.mp h1)
    subst hs
    cases f2 with
    | zero => rfl
    | succ g =>
      show [acc.reverse ++ []] = splitCore sep (g + 1) acc []
      unfold splitCore
      rw [if_neg (by simp [isPrefixOf_nil_false hsep])]
      simp
  | succ f ih =>
    intro s f2 acc h1 h2
    cases s with
    | nil =>
      cases f2 with
      | zero =>
        show splitCore sep (f + 1) acc [] = [acc.reverse ++ []]
        unfold splitCore
        rw [if_neg (by simp [isPrefixOf_nil_false hsep])]
        simp
      | succ g =>
        unfold splitCore
        rw [if_neg (by simp [isPrefixOf_nil_false hsep]),
          if_neg (by simp [isPrefixOf_nil_false hsep])]
    | cons c rest =>
      have hlen1 : 1 ≤ sep.length := List.length_pos.mpr hsep
      cases f2 with
      | zero =>
        exfalso
        simp at h2
      | succ g =>
        unfold splitCore
        by_cases hpre : sep.isPrefixOf (c :: rest) = true
        · rw [if_pos ⟨hsep, hpre⟩, if_pos ⟨hsep, hpre⟩]
          congr 1
          apply ih
          · rw [List.length_drop]
            simp only [List.length_cons] at h1 ⊢
            omega
          · rw [List.length_drop]
            simp only [List.length_cons] at h2 ⊢
            omega
        · rw [if_neg (fun hand => hpre hand.2), if_neg (fun hand => hpre hand.2)]
          apply ih
          · simp only [List.length_cons] at h1
            omega
          · simp only [List.length_cons] at h2
            omega

theorem splitCore_no_occ {sep : List Char} (hsep : sep ≠ []) :
    ∀ (s : List Char) (f : Nat) (acc : List Char), hasSub sep s = false →
      splitCore sep f acc s = [acc.reverse ++ s] := by
  intro s
  induction s with
  | nil =>
    intro f acc _
    cases f with
    | zero => rfl
    | succ g =>
      unfold splitCore
      rw [if_neg (by simp [isPrefixOf_nil_false hsep])]
      simp
  | cons c rest ih =>
    intro f acc h
    have h2 : hasSub sep rest = false := hasSub_cons_false h
    have hpre : sep.isPrefixOf (c :: rest) = false := by
      unfold hasSub at h
      exact (Bool.or_eq_false_iff.mp h).1
    cases f with
    | zero => rfl
    | succ g =>
      unfold splitCore
      rw [if_neg (by simp [hpre])]
      show splitCore sep g (c :: acc) rest = [acc.reverse ++ c :: rest]
      rw [ih g (c :: acc) h2]
      simp

theorem splitCore_split {sep : List Char} (hsep : sep ≠ []) :
    ∀ (a b : List Char) (f : Nat) (acc : List Char),
      (a ++ sep ++ b).length ≤ f →
      hasSub sep (a ++ sep.dropLast) = false →
      splitCore sep f acc (a ++ sep ++ b) =
        (acc.reverse ++ a) :: splitCore sep b.length [] b := by
  intro a
  induction a with
  | nil =>
    intro b f acc hf _
    have hlen1 : 1 ≤ sep.length := List.length_pos.mpr hsep
    rw [List.nil_append] at hf ⊢
    cases f with
    | zero =>
      exfalso
      rw [List.length_append] at hf
      omega
    | succ g =>
      have hbg : b.length ≤ g := by
        rw [List.length_append] at hf
        omega
      conv_lhs => unfold splitCore
      rw [if_pos ⟨hsep, List.isPrefixOf_iff_prefix.mpr ⟨b, rfl⟩⟩, List.drop_left]
      rw [splitCore_fuel hsep g b b.length [] hbg (le_refl _)]
      simp
  | cons c a' ih =>
    intro b f acc hf hocc
    have hlen1 : 1 ≤ sep.length := List.length_pos.mpr hsep
    rw [List.cons_append, List.cons_append] at hf ⊢
    rw [List.cons_append] at hocc
    cases f with
    | zero =>
      exfalso
      simp at hf
    | succ g =>
      have hpre : sep.isPrefixOf (c :: (a' ++ sep ++ b)) = false := by
        by_contra hp
        rw [Bool.not_eq_false] at hp
        have hpref : sep <+: c :: (a' ++ sep ++ b) :=
          List.isPrefixOf_iff_prefix.mp hp
        have htake : sep = (c :: (a' ++ sep ++ b)).take sep.length :=
          List.prefix_iff_eq_take.mp hpref
        have hdecomp : c :: (a' ++ sep ++ b) =
            (c :: (a' ++ sep.dropLast)) ++ ([sep.getLast hsep] ++ b) := by
          have hsd : sep.dropLast ++ [sep.getLast hsep] = sep :=
            List.dropLast_append_getLast hsep
          rw [List.cons_append]
          congr 1
          nth_rewrite 1 [← hsd]
          simp [List.append_assoc]
        have hlen_le : sep.length ≤ (c :: (a' ++ sep.dropLast)).length := by
          simp [List.length_dropLast]
          omega
        have htake2 : sep = (c :: (a' ++ sep.dropLast)).take sep.length := by
          conv_lhs => rw [htake]
          rw [hdecomp, List.take_append_of_le_length hlen_le]
        have hpre2 : sep.isPrefixOf (c :: (a' ++ sep.dropLast)) = true := by
          rw [List.isPrefixOf_iff_prefix, List.prefix_iff_eq_take]
          exact htake2
        have := hasSub_of_isPrefixOf hsep hpre2
        rw [hocc] at this
        cases this
      have hf2 : (a' ++ sep ++ b).length ≤ g := by
        simp only [List.length_cons] at hf
        omega
      have hnc : ¬(sep ≠ [] ∧ sep.isPrefixOf (c :: (a' ++ sep ++ b)) = true) := by
        intro hcon
        rw [hpre] at hcon
        exact absurd hcon.2 (by simp)
      conv_lhs => unfold splitCore
      rw [if_neg hnc]
      show splitCore sep g (c :: acc) (a' ++ sep ++ b) =
        (acc.reverse ++ c :: a') :: splitCore sep b.length [] b
      rw [ih b g (c :: acc) hf2 (hasSub_cons_false hocc)]
      simp

theorem interChars_append (sep : List Char) :
    ∀ (xs ys : List (List Char)), xs ≠ [] → ys ≠ [] →
      interChars sep (xs ++ ys) = interChars sep xs ++ sep ++ interChars sep ys := by
  intro xs
  induction xs with
  | nil => intro ys h _; exact absurd rfl h
  | cons x xs' ih =>
    intro ys _ hys
    cases xs' with
    | nil =>
      obtain ⟨y, ys', rfl⟩ := List.exists_cons_of_ne_nil hys
      rfl
    | cons x2 xs'' =>
      have h2 : x2 :: xs'' ≠ [] := List.cons_ne_nil _ _
      have hrec := ih ys h2 hys
      show x ++ sep ++ interChars sep ((x2 :: xs'') ++ ys) =
        (x ++ sep ++ interChars sep (x2 :: xs'')) ++ sep ++ interChars sep ys
      rw [hrec]
      simp [List.append_assoc]

theorem interChars_flatten (sep : List Char) :
    ∀ (bs : List (List (List Char))) (post : List (List Char)), post ≠ [] →
      (∀ b ∈ bs, b ≠ []) →
      interChars sep (bs.flatten ++ post) =
        interChars sep (bs.map (interChars sep) ++ post) := by
  intro bs
  induction bs with
  | nil => intro post _ _; rfl
  | cons b bs' ih =>
    intro post hpost hne
    have hb : b ≠ [] := hne b (List.mem_cons_self _ _)
    have hrest : bs'.flatten ++ post ≠ [] := List.append_ne_nil_of_right_ne_nil _ hpost
    have hrest2 : bs'.map (interChars sep) ++ post ≠ [] :=
      List.append_ne_nil_of_right_ne_nil _ hpost
    rw [List.flatten_cons, List.append_assoc, interChars_append sep b _ hb hrest]
    rw [ih post hpost (fun x hx => hne x (List.mem_cons_of_mem _ hx))]
    rw [List.map_cons, List.cons_append]
    rw [show (interChars sep b) :: (bs'.map (interChars sep) ++ post) =
          [interChars sep b] ++ (bs'.map (interChars sep) ++ post) from rfl]
    rw [interChars_append sep [interChars sep b] _ (List.cons_ne_nil _ _) hrest2]
    rfl

theorem blockString_data (c : List String) : (blockString c).data = blockData c := by
  unfold blockString blockData
  rw [String.data_append, String.data_append]

theorem interChars_blkLines (c : List String) (hc : c ≠ []) :
    interChars crlf (blkLines c) = blockData c := by
  have hm : c.map String.data ≠ [] := fun h => hc (List.map_eq_nil_iff.mp h)
  unfold blkLines blockData
  rw [show ("BEGIN:VEVENT".data :: (c.map String.data ++ ["END:VEVENT".data])) =
        ["BEGIN:VEVENT".data] ++ (c.map String.data ++ ["END:VEVENT".data]) from rfl]
  rw [interChars_append crlf _ _ (List.cons_ne_nil _ _)
    (List.append_ne_nil_of_right_ne_nil _ (List.cons_ne_nil _ _))]
  rw [interChars_append crlf _ _ hm (List.cons_ne_nil _ _)]
  show "BEGIN:VEVENT".data ++ crlf ++ (coreJoined c ++ crlf ++ "END:VEVENT".data) = _
  simp [List.append_assoc]

theorem evString_data (v : List String) (hv : v ≠ []) :
    (evString v).data =
      (hdrData ++ crlf) ++ "BEGIN:VEVENT".data ++
        (crlf ++ coreJoined v ++ crlf ++ "END:VEVENT".data ++ crlf ++
          "END:VCALENDAR".data ++ crlf) := by
  have hmapne : v.map String.data ≠ [] := fun h => hv (List.map_eq_nil_iff.mp h)
  rw [evString, String.data_append]
  show interChars crlf
      ((icsCalHeader ++ ["BEGIN:VEVENT"] ++ v ++ ["END:VEVENT", "END:VCALENDAR"]).map
        String.data) ++ "\r\n".data = _
  simp only [List.map_append, List.map_cons, List.map_nil]
  rw [List.append_assoc]
  rw [interChars_append crlf _ _
    (List.append_ne_nil_of_right_ne_nil _ (List.cons_ne_nil _ _))
    (List.append_ne_nil_of_right_ne_nil _ (List.cons_ne_nil _ _))]
  rw [interChars_append crlf _ _ hmapne (List.cons_ne_nil _ _)]
  have h3 : interChars crlf (icsCalHeader.map String.data ++ ["BEGIN:VEVENT".data]) =
      hdrData ++ crlf ++ "BEGIN:VEVENT".data := by decide
  have h4 : interChars crlf ["END:VEVENT".data, "END:VCALENDAR".data] =
      "END:VEVENT".data ++ crlf ++ "END:VCALENDAR".data := by decide
  rw [h3, h4]
  simp [List.append_assoc, crlf, coreJoined]

theorem evString_ne_empty (v : List String) : evString v ≠ "" := by
  intro h
  have hd := congrArg String.data h
  rw [evString, String.data_append] at hd
  exact List.append_ne_nil_of_right_ne_nil _ (by decide) hd

theorem pySplit_first (s sep : String) (a b : List Char)
    (hsep : sep.data ≠ []) (hs : s.data = a ++ sep.data ++ b)
    (hno : hasSub sep.data (a ++ sep.data.dropLast) = false) :
    pySplit s sep =
      (⟨a⟩ : String) ::
        (splitCore sep.data b.length [] b).map (fun l => (⟨l⟩ : String)) := by
  unfold pySplit
  rw [if_neg (fun hcon => hsep (List.isEmpty_iff.mp hcon))]
  rw [hs]
  rw [splitCore_split hsep a b ((a ++ sep.data ++ b).length) [] (le_refl _) hno]
  simp only [List.map_cons, List.reverse_nil, List.nil_append]

theorem chunkOf_evString (v : List String) (hv : v ≠ []) (hmf : MarkerFree v) :
    chunkOf (evString v) = some (blockString v) := by
  obtain ⟨hB, hEC, hEV⟩ := hmf
  have hinner : pySplit (evString v) "BEGIN:VEVENT" =
      (⟨hdrData ++ crlf⟩ : String) ::
        (splitCore "BEGIN:VEVENT".data
          (crlf ++ coreJoined v ++ crlf ++ "END:VEVENT".data ++ crlf ++
            "END:VCALENDAR".data ++ crlf).length []
          (crlf ++ coreJoined v ++ crlf ++ "END:VEVENT".data ++ crlf ++
            "END:VCALENDAR".data ++ crlf)).map (fun l => (⟨l⟩ : String)) :=
    pySplit_first _ _ _ _ (by decide) (evString_data v hv) (by decide)
  rw [splitCore_no_occ (by decide) _ _ _ hB] at hinner
  simp only [List.map_cons, List.map_nil, List.reverse_nil, List.nil_append] at hinner
  have hsplit2 := pySplit_first
    (⟨crlf ++ coreJoined v ++ crlf ++ "END:VEVENT".data ++ crlf ++
      "END:VCALENDAR".data ++ crlf⟩ : String) "END:VCALENDAR"
    (crlf ++ coreJoined v ++ crlf ++ "END:VEVENT".data ++ crlf) crlf
    (by decide) rfl hEC
  have hsplit3 := pySplit_first
    (⟨crlf ++ coreJoined v ++ crlf ++ "END:VEVENT".data ++ crlf⟩ : String) "END:VEVENT"
    (crlf ++ coreJoined v ++ crlf) crlf
    (by decide) rfl hEV
  have hgoal : chunkOf (evString v) =
      if 1 < (pySplit (evString v) "BEGIN:VEVENT").length then
        some ("BEGIN:VEVENT" ++
          ((pySplit ((pySplit ((pySplit (evString v) "BEGIN:VEVENT").getD 1 "")
              "END:VCALENDAR").headD "") "END:VEVENT").headD "")
          ++ "END:VEVENT")
      else none := rfl
  rw [hgoal, hinner, if_pos]
  · simp only [List.getD_cons_succ, List.getD_cons_zero]
    rw [hsplit2]
    simp only [List.headD_cons]
    rw [hsplit3]
    simp only [List.headD_cons]
    rfl
  · simp only [List.length_cons, List.length_nil]
    omega

theorem bulkAssemble_filterMap (events : List String) :
    bulkAssemble events =
      joinCRLF ((icsCalHeader ++ events.filterMap chunkOf) ++ ["END:VCALENDAR"]) ++
        "\r\n" := by
  have hfold : ∀ (es : List String) (acc : List String),
      es.foldl
        (fun acc e =>
          match chunkOf e with
          | some ch => acc ++ [ch]
          | none => acc) acc
        = acc ++ es.filterMap chunkOf := by
    intro es
    induction es with
    | nil => intro acc; simp
    | cons e es' ih =>
      intro acc
      rw [List.foldl_cons, List.filterMap_cons]
      cases chunkOf e with
      | none =>
        dsimp only
        rw [ih]
      | some ch =>
        dsimp only
        rw [ih]
        simp [List.append_assoc]
  have hb : bulkAssemble events =
      joinCRLF ((events.foldl
        (fun acc e =>
          match chunkOf e with
          | some ch => acc ++ [ch]
          | none => acc) icsCalHeader) ++ ["END:VCALENDAR"]) ++ "\r\n" := rfl
  rw [hb, hfold]

theorem filterMap_chunk_map_ev (vs : List (List String))
    (hne : ∀ v ∈ vs, v ≠ []) (hmf : ∀ v ∈ vs, MarkerFree v) :
    (vs.map evString).filterMap chunkOf = vs.map blockString := by
  induction vs with
  | nil => rfl
  | cons v vs' ih =>
    rw [List.map_cons, List.filterMap_cons,
      chunkOf_evString v (hne v (List.mem_cons_self _ _)) (hmf v (List.mem_cons_self _ _))]
    dsimp only
    rw [ih (fun x hx => hne x (List.mem_cons_of_mem _ hx))
      (fun x hx => hmf x (List.mem_cons_of_mem _ hx)), List.map_cons]

theorem bulkStructured_blocks (vs : List (List String)) (hne : ∀ v ∈ vs, v ≠ []) :
    bulkStructured vs =
      joinCRLF ((icsCalHeader ++ vs.map blockString) ++ ["END:VCALENDAR"]) ++
        "\r\n" := by
  have hdata : interChars crlf
      ((icsCalHeader ++
        (vs.map fun c => ["BEGIN:VEVENT"] ++ c ++ ["END:VEVENT"]).flatten ++
        ["END:VCALENDAR"]).map String.data) =
      interChars crlf
        (((icsCalHeader ++ vs.map blockString) ++ ["END:VCALENDAR"]).map String.data) := by
    simp only [List.map_append, List.map_cons, List.map_nil, List.map_flatten, List.map_map]
    have hL : vs.map (List.map String.data ∘ fun c =>
          ["BEGIN:VEVENT"] ++ c ++ ["END:VEVENT"]) = vs.map blkLines :=
      List.map_congr_left (fun c _ => by simp [blkLines, Function.comp])
    have hR : vs.map (String.data ∘ blockString) = vs.map blockData :=
      List.map_congr_left (fun c _ => blockString_data c)
    rw [hL, hR]
    rw [List.append_assoc, List.append_assoc]
    rw [interChars_append crlf _ _ (by decide)
      (List.append_ne_nil_of_right_ne_nil _ (List.cons_ne_nil _ _))]
    rw [interChars_append crlf _ _ (by decide)
      (List.append_ne_nil_of_right_ne_nil _ (List.cons_ne_nil _ _))]
    have hbne : ∀ b ∈ vs.map blkLines, b ≠ [] := by
      intro b hb
      obtain ⟨c, _, rfl⟩ := List.mem_map.mp hb
      exact List.cons_ne_nil _ _
    rw [interChars_flatten crlf (vs.map blkLines) _ (List.cons_ne_nil _ _) hbne]
    rw [List.map_map]
    have hfin : vs.map (interChars crlf ∘ blkLines) = vs.map blockData :=
      List.map_congr_left (fun c hc => interChars_blkLines c (hne c hc))
    rw [hfin]
  exact congrArg (fun s => s ++ "\r\n") (congrArg String.mk hdata)

theorem icsEventBytes_none (zdb : ZoneDb) (row : Row) (tzname : String)
    (durationMin : Int) (orgName orgEmail location descTemplate : String)
    (nowUtcSec : Int) (uuid : String) (hm : row.meeting = none) :
    icsEventBytes zdb row tzname durationMin orgName orgEmail location descTemplate
        nowUtcSec uuid = Except.ok "" := by
  unfold icsEventBytes
  rw [hm]

theorem icsVeventLines_ok_ne_nil (zdb : ZoneDb) (row : Row) (m : PyDT) (tzname : String)
    (durationMin : Int) (orgName orgEmail location descTemplate : String)
    (nowUtcSec : Int) (uuid : String) {v : List String}
    (h : icsVeventLines zdb row m tzname durationMin orgName orgEmail location
      descTemplate nowUtcSec uuid = Except.ok v) : v ≠ [] := by
  unfold icsVeventLines at h
  dsimp only at h
  split at h
  · exact Except.noConfusion h
  · split at h
    · exact Except.noConfusion h
    · rw [Except.ok.injEq] at h
      subst h
      split
      · exact List.append_ne_nil_of_right_ne_nil _ (List.cons_ne_nil _ _)
      · exact List.cons_ne_nil _ _

theorem collectVevents_cons (zdb : ZoneDb) (tzname : String) (durationMin : Int)
    (orgName orgEmail location descTemplate : String) (nowUtcSec : Int)
    (r : Row) (u : String) (rest : List (Row × String)) :
    collectVevents zdb tzname durationMin orgName orgEmail location descTemplate
        nowUtcSec ((r, u) :: rest) =
      match r.meeting with
      | none => collectVevents zdb tzname durationMin orgName orgEmail location
          descTemplate nowUtcSec rest
      | some m =>
        match icsVeventLines zdb r m tzname durationMin orgName orgEmail location
          descTemplate nowUtcSec u with
        | Except.error e => Except.error e
        | Except.ok v =>
          match collectVevents zdb tzname durationMin orgName orgEmail location
            descTemplate nowUtcSec rest with
          | Except.error e => Except.error e
          | Except.ok vs => Except.ok (v :: vs) := rfl

theorem collectEvents_cons (zdb : ZoneDb) (tzname : String) (durationMin : Int)
    (orgName orgEmail location descTemplate : String) (nowUtcSec : Int)
    (r : Row) (u : String) (rest : List (Row × String)) :
    collectEvents zdb tzname durationMin orgName orgEmail location descTemplate
        nowUtcSec ((r, u) :: rest) =
      match icsEventBytes zdb r tzname durationMin orgName orgEmail location
        descTemplate nowUtcSec u with
      | Except.error e => Except.error e
      | Except.ok b =>
        match collectEvents zdb tzname durationMin orgName orgEmail location
          descTemplate nowUtcSec rest with
        | Except.error e => Except.error e
        | Except.ok es => Except.ok (if b ≠ "" then b :: es else es) := rfl

theorem collectVevents_ne_nil (zdb : ZoneDb) (tzname : String) (durationMin : Int)
    (orgName orgEmail location descTemplate : String) (nowUtcSec : Int) :
    ∀ (pairs : List (Row × String)) (vs : List (List String)),
      collectVevents zdb tzname durationMin orgName orgEmail location descTemplate
        nowUtcSec pairs = Except.ok vs → ∀ v ∈ vs, v ≠ [] := by
  intro pairs
  induction pairs with
  | nil =>
    intro vs h v hv
    have h2 : Except.ok ([] : List (List String)) =
        (Except.ok vs : Except IcsErr (List (List String))) := h
    injection h2 with h3
    subst h3
    cases hv
  | cons p rest ih =>
    obtain ⟨r, u⟩ := p
    intro vs h v hv
    rw [collectVevents_cons] at h
    cases hm : r.meeting with
    | none =>
      rw [hm] at h
      exact ih vs h v hv
    | some m =>
      rw [hm] at h
      dsimp only at h
      cases hw : icsVeventLines zdb r m tzname durationMin orgName orgEmail location
          descTemplate nowUtcSec u with
      | error e => rw [hw] at h; exact Except.noConfusion h
      | ok w =>
        rw [hw] at h
        dsimp only at h
        cases hrest : collectVevents zdb tzname durationMin orgName orgEmail location
            descTemplate nowUtcSec rest with
        | error e => rw [hrest] at h; exact Except.noConfusion h
        | ok ws =>
          rw [hrest] at h
          dsimp only at h
          injection h with h2
          subst h2
          cases hv with
          | head =>
            exact icsVeventLines_ok_ne_nil zdb r m tzname durationMin orgName
              orgEmail location descTemplate nowUtcSec u hw
          | tail _ hvtail => exact ih ws hrest v hvtail

theorem collectVevents_length (zdb : ZoneDb) (tzname : String) (durationMin : Int)
    (orgName orgEmail location descTemplate : String) (nowUtcSec : Int) :
    ∀ (pairs : List (Row × String)) (vs : List (List String)),
      collectVevents zdb tzname durationMin orgName orgEmail location descTemplate
        nowUtcSec pairs = Except.ok vs →
      vs.length = (pairs.filter fun p => p.1.meeting.isSome).length := by
  intro pairs
  induction pairs with
  | nil =>
    intro vs h
    have h2 : Except.ok ([] : List (List String)) =
        (Except.ok vs : Except IcsErr (List (List String))) := h
    injection h2 with h3
    subst h3
    rfl
  | cons p rest ih =>
    obtain ⟨r, u⟩ := p
    intro vs h
    rw [collectVevents_cons] at h
    rw [List.filter_cons]
    cases hm : r.meeting with
    | none =>
      rw [hm] at h
      rw [if_neg (by simp [hm])]
      exact ih vs h
    | some m =>
      rw [hm] at h
      dsimp only at h
      cases hw : icsVeventLines zdb r m tzname durationMin orgName orgEmail location
          descTemplate nowUtcSec u with
      | error e => rw [hw] at h; exact Except.noConfusion h
      | ok w =>
        rw [hw] at h
        dsimp only at h
        cases hrest : collectVevents zdb tzname durationMin orgName orgEmail location
            descTemplate nowUtcSec rest with
        | error e => rw [hrest] at h; exact Except.noConfusion h
        | ok ws =>
          rw [hrest] at h
          dsimp only at h
          injection h with h2
          subst h2
          rw [if_pos (by simp [hm])]
          rw [List.length_cons, List.length_cons, ih ws hrest]

theorem collectEvents_eq (zdb : ZoneDb) (tzname : String) (durationMin : Int)
    (orgName orgEmail location descTemplate : String) (nowUtcSec : Int) :
    ∀ (pairs : List (Row × String)) (vs : List (List String)),
      collectVevents zdb tzname durationMin orgName orgEmail location descTemplate
        nowUtcSec pairs = Except.ok vs →
      collectEvents zdb tzname durationMin orgName orgEmail location descTemplate
        nowUtcSec pairs = Except.ok (vs.map evString) := by
  intro pairs
  induction pairs with
  | nil =>
    intro vs h
    have h2 : Except.ok ([] : List (List String)) =
        (Except.ok vs : Except IcsErr (List (List String))) := h
    injection h2 with h3
    subst h3
    rfl
  | cons p rest ih =>
    obtain ⟨r, u⟩ := p
    intro vs h
    rw [collectVevents_cons] at h
    rw [collectEvents_cons]
    cases hm : r.meeting with
    | none =>
      rw [hm] at h
      rw [icsEventBytes_none zdb r tzname durationMin orgName orgEmail location
        descTemplate nowUtcSec u hm]
      rw [ih vs h]
      dsimp only
      simp
    | some m =>
      rw [hm] at h
      dsimp only at h
      cases hw : icsVeventLines zdb r m tzname durationMin orgName orgEmail location
          descTemplate nowUtcSec u with
      | error e => rw [hw] at h; exact Except.noConfusion h
      | ok w =>
        rw [hw] at h
        dsimp only at h
        cases hrest : collectVevents zdb tzname durationMin orgName orgEmail location
            descTemplate nowUtcSec rest with
        | error e => rw [hrest] at h; exact Except.noConfusion h
        | ok ws =>
          rw [hrest] at h
          dsimp only at h
          injection h with h2
          subst h2
          rw [icsEventBytes_some zdb r tzname durationMin orgName orgEmail location
            descTemplate nowUtcSec u hm, hw]
          rw [ih ws hrest]
          dsimp only [Except.map]
          have hfold : joinCRLF (icsCalHeader ++ ["BEGIN:VEVENT"] ++ w ++
              ["END:VEVENT", "END:VCALENDAR"]) ++ "\r\n" = evString w := rfl
          rw [hfold]
          rw [if_pos (evString_ne_empty w)]
          rw [List.map_cons]

/-- C8: bulk encoding versus structured composition, corrected with a side
condition. Whenever the structured collection of per-event VEVENT bodies
succeeds, and no body's CRLF-joined content contains one of the textual
markers `BEGIN:VEVENT`, `END:VEVENT` or `END:VCALENDAR` (including
occurrences straddling into the structural markers that follow it), the
source's textual-marker bulk assembly produces exactly the structured
composition: one combined document with a single VCALENDAR header/footer
containing one VEVENT block per meeting-bearing record, records without a
meeting timestamp silently skipped, with the block count equal to the
number of meeting-bearing records. Without the marker-freedom side
condition the equivalence fails (see the counterexample, where a record's
notes contain `END:VEVENT`). -/
theorem C8_bulk_eq_structured (zdb : ZoneDb) (tzname : String) (durationMin : Int)
    (orgName orgEmail location descTemplate : String) (nowUtcSec : Int)
    (pairs : List (Row × String)) (vs : List (List String))
    (hok : collectVevents zdb tzname durationMin orgName orgEmail location descTemplate
      nowUtcSec pairs = Except.ok vs)
    (hmf : ∀ v ∈ vs, MarkerFree v) :
    bulkIcs zdb tzname durationMin orgName orgEmail location descTemplate nowUtcSec
        pairs = Except.ok (bulkStructured vs) ∧
    vs.length = (pairs.filter fun p => p.1.meeting.isSome).length := by
  have hne : ∀ v ∈ vs, v ≠ [] :=
    collectVevents_ne_nil zdb tzname durationMin orgName orgEmail location descTemplate
      nowUtcSec pairs vs hok
  constructor
  · unfold bulkIcs
    rw [collectEvents_eq zdb tzname durationMin orgName orgEmail location descTemplate
      nowUtcSec pairs vs hok]
    dsimp only [Except.map]
    rw [bulkAssemble_filterMap, filterMap_chunk_map_ev vs hne hmf,
      bulkStructured_blocks vs hne]
  · exact collectVevents_length zdb tzname durationMin orgName orgEmail location
      descTemplate nowUtcSec pairs vs hok

set_option maxRecDepth 40000 in
/-- C8 counterexample: for a record whose notes are the literal marker
`END:VEVENT` (flowing into the DESCRIPTION line), the source's bulk
string-splitting truncates the event, so bulk encoding is NOT the
structured composition of the per-event bodies, refuting the claim's
"for all record contents". -/
theorem C8_counterexample :
    bulkIcs zdb0 "America/New_York" 30 "Org" "org@example.com" "HQ" "{notes}" 0
        c8EvilPairs ≠
      (collectVevents zdb0 "America/New_York" 30 "Org" "org@example.com" "HQ"
        "{notes}" 0 c8EvilPairs).map bulkStructured := by
  decide

set_option maxRecDepth 40000 in
/-- C8 witness: on three concrete records (two with a meeting timestamp, one
without), the hypotheses of the corrected claim hold and the bulk document
is the structured composition with exactly two VEVENT blocks. -/
theorem C8_witness :
    bulkIcs zdb0 "America/New_York" 30 "Org" "org@example.com" "HQ" "Call with {name}"
        0 c8Pairs = Except.ok (bulkStructured c8Vs) ∧
    c8Vs.length = (c8Pairs.filter fun p => p.1.meeting.isSome).length :=
  C8_bulk_eq_structured zdb0 "America/New_York" 30 "Org" "org@example.com" "HQ"
    "Call with {name}" 0 c8Pairs c8Vs (by decide) (by decide)

end Prospecter
